import Mathlib

/-!
Verification of `src/research_rabbit/utils_bing.py`.

The module under verification is a Bing-search adapter written in Python:
a response normalizer (`process_bing_search_results`), two formatters
(`deduplicate_and_format_sources` and `format_sources`) and an
orchestration function (`bing_search`) that serializes the normalized
response with `json.dumps(..., indent=2, ensure_ascii=False)`.

The embedding models Python JSON values (`dict`/`list`/`str`/`int`/
`bool`/`None`) as the inductive type `JVal`, Python exceptions as the
type `PyErr`, and fallible Python evaluation as `Except PyErr`.
Notes on the model:
  * `jobj` carries an association list; Python `dict`s preserve insertion
    order and have pairwise-distinct keys, so lists with `Nodup` keys are
    the faithful image (the predicate `JVal.wf` states this invariant).
  * numbers are modelled as `Int`; the only float literal in the source is
    the constant `0.0` (the `score` field), modelled as the integer `0`.
  * Python's cross-type numeric equality (`True == 1`) is not modelled:
    `JVal` equality is structural, which agrees with Python equality on
    all values of a single JSON type.
-/

inductive JVal : Type where
  | jnull : JVal
  | jbool (b : Bool) : JVal
  | jnum (n : Int) : JVal
  | jstr (s : String) : JVal
  | jarr (xs : List JVal) : JVal
  | jobj (fs : List (String × JVal)) : JVal
  deriving Repr

namespace JVal

mutual

def beq : JVal → JVal → Bool
  | .jnull, .jnull => true
  | .jbool a, .jbool b => a == b
  | .jnum a, .jnum b => a == b
  | .jstr a, .jstr b => a == b
  | .jarr xs, .jarr ys => beqList xs ys
  | .jobj fs, .jobj gs => beqFields fs gs
  | _, _ => false

def beqList : List JVal → List JVal → Bool
  | [], [] => true
  | x :: xs, y :: ys => beq x y && beqList xs ys
  | _, _ => false

def beqFields : List (String × JVal) → List (String × JVal) → Bool
  | [], [] => true
  | (k, v) :: fs, (l, w) :: gs => k == l && beq v w && beqFields fs gs
  | _, _ => false

end

instance : BEq JVal := ⟨beq⟩

/-- Induction principle for `JVal` giving hypotheses on the members of the
nested lists. -/
theorem induct (P : JVal → Prop)
    (hnull : P .jnull) (hbool : ∀ b, P (.jbool b)) (hnum : ∀ n, P (.jnum n))
    (hstr : ∀ s, P (.jstr s))
    (harr : ∀ xs, (∀ x ∈ xs, P x) → P (.jarr xs))
    (hobj : ∀ fs, (∀ p ∈ fs, P p.2) → P (.jobj fs)) : ∀ v, P v
  | .jnull => hnull
  | .jbool b => hbool b
  | .jnum n => hnum n
  | .jstr s => hstr s
  | .jarr xs => harr xs (fun x hx =>
      have : sizeOf x < sizeOf (JVal.jarr xs) := by
        have := List.sizeOf_lt_of_mem hx
        simp only [JVal.jarr.sizeOf_spec]
        omega
      induct P hnull hbool hnum hstr harr hobj x)
  | .jobj fs => hobj fs (fun p hp =>
      have : sizeOf p.2 < 1 + sizeOf fs := by
        have h1 := List.sizeOf_lt_of_mem hp
        have h2 : sizeOf p.2 < sizeOf p := by
          obtain ⟨k, v⟩ := p
          simp only [Prod.mk.sizeOf_spec]
          omega
        omega
      induct P hnull hbool hnum hstr harr hobj p.2)
termination_by v => sizeOf v

theorem beq_iff : ∀ a b : JVal, (beq a b = true) ↔ a = b := by
  intro a
  induction a using JVal.induct with
  | hnull => intro b; cases b <;> simp [beq]
  | hbool x => intro b; cases b <;> simp [beq]
  | hnum x => intro b; cases b <;> simp [beq]
  | hstr x => intro b; cases b <;> simp [beq]
  | harr xs ih =>
    intro b
    cases b <;> simp only [beq, false_iff, reduceCtorEq, not_false_eq_true] <;> try trivial
    case jarr ys =>
      simp only [JVal.jarr.injEq]
      induction xs generalizing ys with
      | nil => cases ys <;> simp [beqList]
      | cons x xs ihtl =>
        cases ys with
        | nil => simp [beqList]
        | cons y ys =>
          simp only [beqList, Bool.and_eq_true, List.cons.injEq]
          rw [ih x (by simp), ihtl (fun z hz => ih z (by simp [hz])) ys]
  | hobj fs ih =>
    intro b
    cases b <;> simp only [beq, false_iff, reduceCtorEq, not_false_eq_true] <;> try trivial
    case jobj gs =>
      simp only [JVal.jobj.injEq]
      induction fs generalizing gs with
      | nil => cases gs <;> simp [beqFields]
      | cons f fs ihtl =>
        cases gs with
        | nil => simp [beqFields]
        | cons g gs =>
          obtain ⟨k, v⟩ := f
          obtain ⟨l, w⟩ := g
          simp only [beqFields, Bool.and_eq_true, List.cons.injEq, Prod.mk.injEq,
            beq_iff_eq]
          rw [ih (k, v) (by simp)]
          rw [ihtl (fun p hp => ih p (by simp [hp])) gs]

instance : LawfulBEq JVal where
  eq_of_beq h := (beq_iff _ _).mp h
  rfl := (beq_iff _ _).mpr rfl

instance : DecidableEq JVal :=
  fun a b => decidable_of_iff (beq a b = true) (beq_iff a b)

end JVal

/-! ### Python exceptions and primitive operations -/

/-- Python exceptions that the module under verification can raise.
`jsonDecodeError` is `json.JSONDecodeError` (a subclass of `ValueError`
raised only by `json.loads`); the model keeps it separate because
`format_sources` handles it by its own `except` clause. Positional
information carried by the real `JSONDecodeError` is omitted from the
message. -/
inductive PyErr : Type where
  | valueError (msg : String)
  | typeError (msg : String)
  | keyError (key : String)
  | attributeError (msg : String)
  | jsonDecodeError (msg : String)
  deriving Repr, DecidableEq

/-- Wrap a string in ASCII single quotes, as CPython error messages do. -/
def qt (s : String) : String := "\x27" ++ s ++ "\x27"

/-- Python `type(v).__name__` for the JSON-representable types. -/
def pyTypeName : JVal → String
  | .jnull => "NoneType"
  | .jbool _ => "bool"
  | .jnum _ => "int"
  | .jstr _ => "str"
  | .jarr _ => "list"
  | .jobj _ => "dict"

/-- Python truthiness of a JSON-representable value. -/
def jtruthy : JVal → Bool
  | .jnull => false
  | .jbool b => b
  | .jnum n => n != 0
  | .jstr s => s != ""
  | .jarr xs => !xs.isEmpty
  | .jobj fs => !fs.isEmpty

/-- Whether the value is a Python `dict`. -/
def JVal.isObj : JVal → Bool
  | .jobj _ => true
  | _ => false

/-- Values Python refuses to use as `dict` keys (`list` and `dict`). -/
def unhashable : JVal → Bool
  | .jarr _ => true
  | .jobj _ => true
  | _ => false

/-- `str(e)` for the modelled exceptions: `KeyError` renders its key in
quotes, the others render their message. -/
def pyErrStr : PyErr → String
  | .valueError m => m
  | .typeError m => m
  | .keyError k => qt k
  | .attributeError m => m
  | .jsonDecodeError m => m

/-- Python method call `v.get(key, dflt)`; only `dict` has `.get`. -/
def pyGet (v : JVal) (key : String) (dflt : JVal) : Except PyErr JVal :=
  match v with
  | .jobj fs => .ok ((fs.lookup key).getD dflt)
  | v => .error (.attributeError
      (qt (pyTypeName v) ++ " object has no attribute " ++ qt "get"))

/-- Python subscript `v[key]` with a string key. -/
def pyIndex (v : JVal) (key : String) : Except PyErr JVal :=
  match v with
  | .jobj fs =>
    match fs.lookup key with
    | some w => .ok w
    | none => .error (.keyError key)
  | .jstr _ => .error (.typeError "string indices must be integers")
  | .jarr _ => .error (.typeError "list indices must be integers or slices, not str")
  | v => .error (.typeError (qt (pyTypeName v) ++ " object is not subscriptable"))

/-- Substring test on strings (Python `needle in hay`). -/
def isSubstrOf (needle hay : String) : Bool :=
  (List.range (hay.data.length + 1)).any fun i => needle.data.isPrefixOf (hay.data.drop i)

/-- Python membership `key in v` for a string key: key lookup on `dict`,
element equality on `list`, substring test on `str`, `TypeError` otherwise. -/
def pyContains (key : String) (v : JVal) : Except PyErr Bool :=
  match v with
  | .jobj fs => .ok (fs.any (fun p => p.1 == key))
  | .jarr xs => .ok (xs.contains (JVal.jstr key))
  | .jstr s => .ok (isSubstrOf key s)
  | v => .error (.typeError ("argument of type " ++ qt (pyTypeName v) ++ " is not iterable"))

/-- Python iteration `for x in v`: `list` yields elements, `str` yields
one-character strings, `dict` yields keys, `TypeError` otherwise. -/
def pyIter (v : JVal) : Except PyErr (List JVal) :=
  match v with
  | .jarr xs => .ok xs
  | .jstr s => .ok (s.data.map (fun c => JVal.jstr c.toString))
  | .jobj fs => .ok (fs.map (fun p => JVal.jstr p.1))
  | v => .error (.typeError (qt (pyTypeName v) ++ " object is not iterable"))

/-- Python slice `v[:n]`. -/
def pySliceTo (n : Nat) (v : JVal) : Except PyErr JVal :=
  match v with
  | .jarr xs => .ok (.jarr (xs.take n))
  | .jstr s => .ok (.jstr (s.take n))
  | .jobj _ => .error (.typeError ("unhashable type: " ++ qt "slice"))
  | v => .error (.typeError (qt (pyTypeName v) ++ " object is not subscriptable"))

/-- Python `len(v)`. -/
def pyLen (v : JVal) : Except PyErr Nat :=
  match v with
  | .jstr s => .ok s.length
  | .jarr xs => .ok xs.length
  | .jobj fs => .ok fs.length
  | v => .error (.typeError ("object of type " ++ qt (pyTypeName v) ++ " has no len()"))

/-! ### Python `str()` rendering (used by the f-strings in the source) -/

/-- Lowercase hexadecimal digit. -/
def hexDigit (n : Nat) : Char :=
  if n < 10 then Char.ofNat (48 + n) else Char.ofNat (87 + n)

/-- Two lowercase hexadecimal digits for a byte value. -/
def hex2 (n : Nat) : String :=
  (hexDigit (n / 16 % 16)).toString ++ (hexDigit (n % 16)).toString

/-- Escape of one character inside a Python string repr with the given
quote character. Non-printable characters outside the ASCII range keep
their literal form in this model. -/
def pyCharEscape (quote : Char) (c : Char) : String :=
  if c = '\\' then "\\\\"
  else if c = quote then "\\" ++ quote.toString
  else if c = '\n' then "\\n"
  else if c = '\r' then "\\r"
  else if c = '\t' then "\\t"
  else if c.toNat < 32 || c.toNat == 127 then "\\x" ++ hex2 c.toNat
  else c.toString

/-- Python `repr` of a `str`: single-quoted, switching to double quotes
when the string contains a single quote but no double quote. -/
def pyStrRepr (s : String) : String :=
  let squote : Char := Char.ofNat 39
  let q : Char := if s.data.contains squote && !(s.data.contains '"') then '"' else squote
  q.toString ++ String.join (s.data.map (pyCharEscape q)) ++ q.toString

mutual

/-- Python `repr(v)` for JSON-representable values. -/
def pyRepr : JVal → String
  | .jnull => "None"
  | .jbool true => "True"
  | .jbool false => "False"
  | .jnum n => toString n
  | .jstr s => pyStrRepr s
  | .jarr xs => "[" ++ String.intercalate ", " (pyReprList xs) ++ "]"
  | .jobj fs => "\x7b" ++ String.intercalate ", " (pyReprFields fs) ++ "\x7d"

def pyReprList : List JVal → List String
  | [] => []
  | x :: xs => pyRepr x :: pyReprList xs

def pyReprFields : List (String × JVal) → List String
  | [] => []
  | (k, v) :: fs => (pyStrRepr k ++ ": " ++ pyRepr v) :: pyReprFields fs

end

/-- Python `str(v)`: identity on strings, `repr`-based otherwise (matching
`str` on `None`, booleans, numbers, lists and dicts). -/
def pyStr : JVal → String
  | .jstr s => s
  | v => pyRepr v

/-! ### `json.dumps(v, indent=2, ensure_ascii=False)` -/

/-- Decimal digit character. -/
def digitChar (n : Nat) : Char := Char.ofNat (48 + n)

/-- Decimal digits of a natural number, most significant first. -/
def natChars (n : Nat) : List Char :=
  if h : n < 10 then [digitChar n]
  else natChars (n / 10) ++ [digitChar (n % 10)]
decreasing_by exact Nat.div_lt_self (by omega) (by omega)

/-- Decimal rendering of an integer (CPython `str`/`json.dumps` form). -/
def intChars (n : Int) : List Char :=
  if n < 0 then '-' :: natChars n.natAbs else natChars n.natAbs

/-- `json.dumps` escaping of one string character (`ensure_ascii=False`):
quotes, backslashes and control characters are escaped, everything else is
emitted literally. -/
def jsonEscapeChar (c : Char) : List Char :=
  if c = '"' then ['\\', '"']
  else if c = '\\' then ['\\', '\\']
  else if c = '\n' then ['\\', 'n']
  else if c = '\t' then ['\\', 't']
  else if c = '\r' then ['\\', 'r']
  else if c = Char.ofNat 8 then ['\\', 'b']
  else if c = Char.ofNat 12 then ['\\', 'f']
  else if c.toNat < 32 then ['\\', 'u', '0', '0', hexDigit (c.toNat / 16 % 16), hexDigit (c.toNat % 16)]
  else [c]

/-- A JSON string literal: quote, escaped characters, quote. -/
def jsonStrChars (s : String) : List Char :=
  '"' :: (s.data.flatMap jsonEscapeChar) ++ ['"']

/-- Indentation: `n` spaces. -/
def padChars (n : Nat) : List Char := List.replicate n ' '

mutual

/-- Characters of `json.dumps(v, indent=2, ensure_ascii=False)` at an
indentation level: items of non-empty containers are placed one per line,
indented two further spaces, separated by `,` and keyed with `": "`. -/
def dumpsVal : Nat → JVal → List Char
  | _, .jnull => ['n', 'u', 'l', 'l']
  | _, .jbool true => ['t', 'r', 'u', 'e']
  | _, .jbool false => ['f', 'a', 'l', 's', 'e']
  | _, .jnum n => intChars n
  | _, .jstr s => jsonStrChars s
  | _, .jarr [] => ['[', ']']
  | ind, .jarr (x :: xs) =>
    '[' :: '\n' :: dumpsItems (ind + 2) x xs ++ '\n' :: padChars ind ++ [']']
  | _, .jobj [] => ['\x7b', '\x7d']
  | ind, .jobj (f :: fs) =>
    '\x7b' :: '\n' :: dumpsFields (ind + 2) f fs ++ '\n' :: padChars ind ++ ['\x7d']
termination_by ind v => sizeOf v
decreasing_by all_goals simp_all [List.cons.sizeOf_spec, Prod.mk.sizeOf_spec] <;> omega

def dumpsItems : Nat → JVal → List JVal → List Char
  | ind, x, [] => padChars ind ++ dumpsVal ind x
  | ind, x, y :: ys => padChars ind ++ dumpsVal ind x ++ ',' :: '\n' :: dumpsItems ind y ys
termination_by ind x xs => 1 + sizeOf x + sizeOf xs
decreasing_by all_goals simp_all [List.cons.sizeOf_spec, Prod.mk.sizeOf_spec] <;> omega

def dumpsFields : Nat → (String × JVal) → List (String × JVal) → List Char
  | ind, (k, v), [] => padChars ind ++ jsonStrChars k ++ ':' :: ' ' :: dumpsVal ind v
  | ind, (k, v), f :: fs =>
    padChars ind ++ jsonStrChars k ++ ':' :: ' ' :: dumpsVal ind v ++ ',' :: '\n' :: dumpsFields ind f fs
termination_by ind f fs => 1 + sizeOf f + sizeOf fs
decreasing_by all_goals simp_all [List.cons.sizeOf_spec, Prod.mk.sizeOf_spec] <;> omega

end

/-- `json.dumps(v, indent=2, ensure_ascii=False)` as used at source line 185. -/
def json_dumps (v : JVal) : String := String.mk (dumpsVal 0 v)

/-! ### `json.loads` -/

/-- Skip JSON whitespace. -/
def skipWs : List Char → List Char
  | c :: cs => if c = ' ' || c = '\t' || c = '\n' || c = '\r' then skipWs cs else c :: cs
  | [] => []

/-- Value of a hexadecimal digit character. -/
def parseHex (c : Char) : Option Nat :=
  if '0' ≤ c ∧ c ≤ '9' then some (c.toNat - 48)
  else if 'a' ≤ c ∧ c ≤ 'f' then some (c.toNat - 87)
  else if 'A' ≤ c ∧ c ≤ 'F' then some (c.toNat - 55)
  else none

/-- Single-character JSON string escapes. -/
def escChar (e : Char) : Option Char :=
  if e = '"' then some '"'
  else if e = '\\' then some '\\'
  else if e = '/' then some '/'
  else if e = 'b' then some (Char.ofNat 8)
  else if e = 'f' then some (Char.ofNat 12)
  else if e = 'n' then some '\n'
  else if e = 'r' then some '\r'
  else if e = 't' then some '\t'
  else none

/-- Parse the body of a JSON string literal (the opening quote already
consumed), returning the decoded string and the remaining input. Raw
control characters are rejected as CPython's strict decoder does. -/
def parseStringBody : List Char → Except PyErr (String × List Char)
  | [] => .error (.jsonDecodeError "Unterminated string")
  | c :: cs =>
    if c = '"' then .ok ("", cs)
    else if c = '\\' then
      match cs with
      | [] => .error (.jsonDecodeError "Unterminated string")
      | 'u' :: h1 :: h2 :: h3 :: h4 :: cs2 =>
        match parseHex h1, parseHex h2, parseHex h3, parseHex h4 with
        | some a, some b, some c2, some d =>
          (parseStringBody cs2).map
            (fun p => ((Char.ofNat (((a * 16 + b) * 16 + c2) * 16 + d)).toString ++ p.1, p.2))
        | _, _, _, _ => .error (.jsonDecodeError "Invalid \\uXXXX escape")
      | e :: cs2 =>
        match escChar e with
        | some ch => (parseStringBody cs2).map (fun p => (ch.toString ++ p.1, p.2))
        | none => .error (.jsonDecodeError "Invalid \\escape")
    else if c.toNat < 32 then .error (.jsonDecodeError "Invalid control character")
    else (parseStringBody cs).map (fun p => (c.toString ++ p.1, p.2))

/-- Whether a character is a decimal digit. -/
def isDigitChar (c : Char) : Bool := 48 ≤ c.toNat && c.toNat ≤ 57

/-- Consume a maximal run of decimal digits, extending an accumulator. -/
def parseDigits : List Char → Nat → (Nat × List Char)
  | c :: cs, acc =>
    if isDigitChar c then parseDigits cs (acc * 10 + (c.toNat - 48)) else (acc, c :: cs)
  | [], acc => (acc, [])

/-- The integer part of a JSON number literal: one digit `0`, or a
nonzero digit followed by a maximal digit run (leading zeros are invalid
JSON). -/
def parseNumCore : List Char → Except PyErr (Nat × List Char)
  | d :: ds2 =>
    if d = '0' then .ok (0, ds2)
    else if isDigitChar d then .ok (parseDigits ds2 (d.toNat - 48))
    else .error (.jsonDecodeError "Expecting value")
  | [] => .error (.jsonDecodeError "Expecting value")

/-- Parse a JSON integer literal (optional minus sign; no leading zeros).
Fraction or exponent parts would produce a Python `float`, which the model
cannot represent, so they are reported as a decode error instead (a
documented model restriction; no claim involves float literals). -/
def parseNumber (cs : List Char) : Except PyErr (Int × List Char) :=
  let signed : Except PyErr (Bool × Nat × List Char) :=
    if cs.head? = some '-' then (parseNumCore cs.tail).map (fun p => (true, p))
    else (parseNumCore cs).map (fun p => (false, p))
  match signed with
  | .error e => .error e
  | .ok (neg, n, rest) =>
    match rest with
    | c :: _ =>
      if c = '.' || c = 'e' || c = 'E' then
        .error (.jsonDecodeError "float literals are outside the model")
      else .ok (if neg then -(n : Int) else (n : Int), rest)
    | [] => .ok (if neg then -(n : Int) else (n : Int), rest)

/-- Insert a parsed object member as CPython's `dict` building does: a
repeated key keeps its first position but takes its last value. `d` is the
dict built from the members to the right of `(k, v)`. -/
def dictOfPairs : List (String × JVal) → List (String × JVal)
  | [] => []
  | (k, v) :: rest =>
    let d := dictOfPairs rest
    (k, ((d.lookup k).getD v)) :: d.filter (fun p => !(p.1 == k))

mutual

/-- Parse one JSON value after skipping whitespace. The fuel argument
bounds recursion depth; `json_loads` supplies more fuel than any input can
consume. -/
def parseVal : Nat → List Char → Except PyErr (JVal × List Char)
  | 0, _ => .error (.jsonDecodeError "Expecting value")
  | fuel + 1, cs =>
    match skipWs cs with
    | [] => .error (.jsonDecodeError "Expecting value")
    | 'n' :: cs1 =>
      if ['u', 'l', 'l'].isPrefixOf cs1 then .ok (.jnull, cs1.drop 3)
      else .error (.jsonDecodeError "Expecting value")
    | 't' :: cs1 =>
      if ['r', 'u', 'e'].isPrefixOf cs1 then .ok (.jbool true, cs1.drop 3)
      else .error (.jsonDecodeError "Expecting value")
    | 'f' :: cs1 =>
      if ['a', 'l', 's', 'e'].isPrefixOf cs1 then .ok (.jbool false, cs1.drop 4)
      else .error (.jsonDecodeError "Expecting value")
    | '"' :: cs1 => (parseStringBody cs1).map (fun p => (.jstr p.1, p.2))
    | '[' :: cs1 =>
      match skipWs cs1 with
      | ']' :: cs2 => .ok (.jarr [], cs2)
      | _ => (parseItems fuel cs1).map (fun p => (.jarr p.1, p.2))
    | '\x7b' :: cs1 =>
      match skipWs cs1 with
      | '\x7d' :: cs2 => .ok (.jobj [], cs2)
      | _ => (parseMembers fuel cs1).map (fun p => (.jobj (dictOfPairs p.1), p.2))
    | c :: cs1 =>
      if c = '-' || isDigitChar c then
        (parseNumber (c :: cs1)).map (fun p => (.jnum p.1, p.2))
      else .error (.jsonDecodeError "Expecting value")

def parseItems : Nat → List Char → Except PyErr (List JVal × List Char)
  | 0, _ => .error (.jsonDecodeError "Expecting value")
  | fuel + 1, cs =>
    match parseVal fuel cs with
    | .error e => .error e
    | .ok (v, cs1) =>
      match skipWs cs1 with
      | ',' :: cs2 => (parseItems fuel cs2).map (fun p => (v :: p.1, p.2))
      | ']' :: cs2 => .ok ([v], cs2)
      | _ => .error (.jsonDecodeError "Expecting delimiter")

def parseMembers : Nat → List Char → Except PyErr (List (String × JVal) × List Char)
  | 0, _ => .error (.jsonDecodeError "Expecting value")
  | fuel + 1, cs =>
    match skipWs cs with
    | '"' :: cs1 =>
      match parseStringBody cs1 with
      | .error e => .error e
      | .ok (k, cs2) =>
        match skipWs cs2 with
        | ':' :: cs3 =>
          match parseVal fuel cs3 with
          | .error e => .error e
          | .ok (v, cs4) =>
            match skipWs cs4 with
            | ',' :: cs5 => (parseMembers fuel cs5).map (fun p => ((k, v) :: p.1, p.2))
            | '\x7d' :: cs5 => .ok ([(k, v)], cs5)
            | _ => .error (.jsonDecodeError "Expecting delimiter")
        | _ => .error (.jsonDecodeError "Expecting colon delimiter")
    | _ => .error (.jsonDecodeError "Expecting property name enclosed in double quotes")

end

/-- `json.loads(s)`: parse one value and require only whitespace after it. -/
def json_loads (s : String) : Except PyErr JVal :=
  match parseVal (2 * s.length + 2) s.data with
  | .error e => .error e
  | .ok (v, rest) =>
    match skipWs rest with
    | [] => .ok v
    | _ => .error (.jsonDecodeError "Extra data")

/-! ### The functions of `utils_bing.py` -/

/-- An argument to the formatters: either a Python `str` (which the source
passes through `json.loads`) or an already-parsed value. -/
inductive PyInput : Type where
  | str (s : String) : PyInput
  | val (v : JVal) : PyInput
  deriving Repr, DecidableEq

/-- The `isinstance(x, str)` branch shared by both formatters (source
lines 97-98 and 140-141): a string is parsed, anything else is passed
through. -/
def parseArg : PyInput → Except PyErr JVal
  | .str s => json_loads s
  | .val v => .ok v


/-- A Python `for` loop that appends `f x` to an accumulating list for
each element, propagating the first exception (used for the two
normalization loops and the two formatting loops of the source). -/
def pyMapLoop (f : JVal → Except PyErr α) : List JVal → Except PyErr (List α)
  | [] => .ok []
  | x :: xs =>
    match f x with
    | .error e => .error e
    | .ok y => (pyMapLoop f xs).map (fun ys => y :: ys)

/-- Normalization of one web result: the dict literal at source lines
19-25, with its fields evaluated in source order (`result["snippet"]`,
`result.get("snippet", "")`, the constant score `0.0`, `result["name"]`,
`result["url"]`). -/
def processWebResult (result : JVal) : Except PyErr JVal := do
  let content ← pyIndex result "snippet"
  let raw_content ← pyGet result "snippet" (.jstr "")
  let title ← pyIndex result "name"
  let url ← pyIndex result "url"
  pure (.jobj [("content", content), ("raw_content", raw_content),
               ("score", .jnum 0), ("title", title), ("url", url)])

/-- Normalization of one image entry: the dict literal at source lines
31-35 (`image["contentUrl"]`, `image.get("thumbnailUrl", "")`,
`image.get("name", "")`). -/
def processImage (image : JVal) : Except PyErr JVal := do
  let url ← pyIndex image "contentUrl"
  let thumbnail_url ← pyGet image "thumbnailUrl" (.jstr "")
  let title ← pyGet image "name" (.jstr "")
  pure (.jobj [("url", url), ("thumbnail_url", thumbnail_url), ("title", title)])

/-- `data["queryContext"]["originalQuery"]` (source line 11): the one
chained subscript of the normalizer, evaluated while the result dict
literal is built, before any other field of `data` is touched. -/
def queryExtract (data : JVal) : Except PyErr JVal := do
  let qc ← pyIndex data "queryContext"
  pyIndex qc "originalQuery"

/-- The guard `"webPages" in data and "value" in data["webPages"]`
(source line 17), with Python's short-circuit `and`. -/
def webPagesCond (data : JVal) : Except PyErr Bool := do
  let c1 ← pyContains "webPages" data
  if c1 then do
    let wp ← pyIndex data "webPages"
    pyContains "value" wp
  else pure false

/-- The web-results loop `for result in data["webPages"]["value"]`
(source lines 18-26), appending one processed result per entry. -/
def webResults (data : JVal) : Except PyErr (List JVal) := do
  let wp ← pyIndex data "webPages"
  let v ← pyIndex wp "value"
  let items ← pyIter v
  pyMapLoop processWebResult items

/-- The guard `"images" in data and "value" in data["images"]`
(source line 29). -/
def imagesCond (data : JVal) : Except PyErr Bool := do
  let c1 ← pyContains "images" data
  if c1 then do
    let iv ← pyIndex data "images"
    pyContains "value" iv
  else pure false

/-- The image loop `for image in data["images"]["value"][:10]`
(source lines 30-36). -/
def imageResults (data : JVal) : Except PyErr (List JVal) := do
  let iv ← pyIndex data "images"
  let v ← pyIndex iv "value"
  let sliced ← pySliceTo 10 v
  let items ← pyIter sliced
  pyMapLoop processImage items

/-- A guarded loop: run the loop when its `if` condition held, keep the
list empty otherwise (the two `if` blocks of source lines 17 and 29). -/
def guarded (c : Bool) (m : Except PyErr (List JVal)) : Except PyErr (List JVal) :=
  if c then m else pure []

/-- `process_bing_search_results` (source lines 6-38): the dict literal of
lines 7-14 (whose construction evaluates the required query path), then
the two guarded loops filling `results` and `images`. -/
def process_bing_search_results (data : JVal) : Except PyErr JVal := do
  let query ← queryExtract data
  let wc ← webPagesCond data
  let results ← guarded wc (webResults data)
  let ic ← imagesCond data
  let images ← guarded ic (imageResults data)
  pure (.jobj [("answer", .jnull), ("follow_up_questions", .jnull),
               ("images", .jarr images), ("query", query),
               ("response_time", .jnull), ("results", .jarr results)])

/-- One iteration of the deduplication loop of
`deduplicate_and_format_sources` (source lines 113-116):
`url = source.get('url')`; when `url` is truthy and not already a key of
the accumulated dict, the pair is appended. Membership testing against the
dict raises `TypeError` on an unhashable url; truthiness is checked first,
mirroring the short-circuit `url and url not in unique_sources`. -/
def dedupStep (acc : List (JVal × JVal)) (source : JVal) : Except PyErr (List (JVal × JVal)) := do
  let url ← pyGet source "url" .jnull
  if jtruthy url then
    if unhashable url then
      .error (.typeError ("unhashable type: " ++ qt (pyTypeName url)))
    else if (acc.map Prod.fst).contains url then
      pure acc
    else
      pure (acc ++ [(url, source)])
  else
    pure acc

/-- The `for source in sources_list` deduplication loop, accumulating the
insertion-ordered dict `unique_sources` as an association list. -/
def dedupLoop : List JVal → List (JVal × JVal) → Except PyErr (List (JVal × JVal))
  | [], acc => .ok acc
  | s :: rest, acc =>
    match dedupStep acc s with
    | .error e => .error e
    | .ok acc2 => dedupLoop rest acc2

/-- The per-source block of the formatting loop (source lines 120-131):
title from `get('title', 'No Title')`, content from
`get('content', get('snippet', '[No content]'))`, url from
`get('url', '[No URL]')`; when `include_raw_content` is false and
`len(content)` exceeds `max_tokens_per_source`, the content is sliced and
`"..."` appended; the three f-string lines plus a blank line. -/
def formatBlock (maxTok : Nat) (includeRaw : Bool) (source : JVal) : Except PyErr String := do
  let title ← pyGet source "title" (.jstr "No Title")
  let snippetDflt ← pyGet source "snippet" (.jstr "[No content]")
  let content ← pyGet source "content" snippetDflt
  let url ← pyGet source "url" (.jstr "[No URL]")
  let content ← if includeRaw then pure content else do
      let len ← pyLen content
      if maxTok < len then do
        let sliced ← pySliceTo maxTok content
        match sliced with
        | .jstr s => pure (JVal.jstr (s ++ "..."))
        | .jarr _ => .error (.typeError "can only concatenate list (not \"str\") to list")
        | w => .error (.typeError ("unsupported operand type(s) for +: "
            ++ qt (pyTypeName w) ++ " and " ++ qt "str"))
      else pure content
  pure ("Title: " ++ pyStr title ++ "\n" ++ "URL: " ++ pyStr url ++ "\n"
        ++ "Content: " ++ pyStr content ++ "\n\n")

/-- `deduplicate_and_format_sources` (source lines 85-133): parse a string
argument, require a dict, locate the sources under `results` or else
`top_web_results`, deduplicate by url, then concatenate the per-source
blocks after the `"Sources:\n\n"` header. -/
def deduplicate_and_format_sources (inp : PyInput) (maxTok : Nat) (includeRaw : Bool) :
    Except PyErr String := do
  let sr ← parseArg inp
  match sr with
  | .jobj fs => do
    let sourcesList ← match fs.lookup "results" with
      | some v => pure v
      | none => match fs.lookup "top_web_results" with
        | some v => pure v
        | none => .error (.valueError "Missing results in search response")
    let items ← pyIter sourcesList
    let uniq ← dedupLoop items []
    let blocks ← pyMapLoop (formatBlock maxTok includeRaw) (uniq.map Prod.snd)
    pure ("Sources:\n\n" ++ String.join blocks)
  | _ => .error (.valueError "Input must be a dictionary")

/-- One iteration of the bullet loop of `format_sources` (source lines
154-157): `"* <title> : <url>"` with `.get` defaults `'No Title'` and
`'No URL'`. `format_sources_body` below is the body of the `try` block
after the parse of a string argument (source lines 143-159): non-dict
input raises `ValueError`; `results` is read with `.get('results', [])`;
a falsy value returns `"No results found"`; otherwise the bullet lines
are joined with newlines. -/
def bulletOf (source : JVal) : Except PyErr String := do
  let title ← pyGet source "title" (.jstr "No Title")
  let url ← pyGet source "url" (.jstr "No URL")
  pure ("* " ++ pyStr title ++ " : " ++ pyStr url)

/-- The fields of a `dict` value (empty for the other constructors). -/
def jfields : JVal → List (String × JVal)
  | .jobj fs => fs
  | _ => []

def format_sources_body (search_results : JVal) : Except PyErr String := do
  match search_results with
  | .jobj fs => do
    let results := (fs.lookup "results").getD (.jarr [])
    if !jtruthy results then
      pure "No results found"
    else do
      let items ← pyIter results
      let lines ← pyMapLoop bulletOf items
      pure (String.intercalate "\n" lines)
  | _ => .error (.valueError "Input must be a dictionary or JSON string")

/-- `format_sources` (source lines 136-164): the `try` block parses a
string argument and runs the body; `except json.JSONDecodeError` re-raises
`ValueError("Invalid JSON string input")` (which, raised from the handler,
escapes the surrounding `try`), and `except Exception` converts any other
exception into the returned string `"Error formatting sources: ..."`. -/
def format_sources (search_results : PyInput) : Except PyErr String :=
  let attempt : Except PyErr String := do
    let parsed ← parseArg search_results
    format_sources_body parsed
  match attempt with
  | .ok s => .ok s
  | .error (.jsonDecodeError _) => .error (.valueError "Invalid JSON string input")
  | .error e => .ok ("Error formatting sources: " ++ pyErrStr e)

/-- `bing_search` (source lines 166-185) after the HTTP call: the client's
return value (the decoded response body, or the in-band envelope
`{"error": str(e)}` that `BingSearchClient.search` returns on an HTTP or
network failure) is passed unconditionally to
`process_bing_search_results`, and the processed dict is serialized with
`json.dumps(..., indent=2, ensure_ascii=False)`. -/
def bing_search_post (clientResult : JVal) : Except PyErr String := do
  let processed ← process_bing_search_results clientResult
  pure (json_dumps processed)

/-! ### General lemmas about the `Except` plumbing and the loops -/

theorem pyBind_ok {α β : Type} (a : α) (f : α → Except PyErr β) :
    ((Except.ok a : Except PyErr α) >>= f) = f a := rfl

theorem pyBind_error {α β : Type} (e : PyErr) (f : α → Except PyErr β) :
    ((Except.error e : Except PyErr α) >>= f) = .error e := rfl

theorem pyPure_eq {α : Type} (a : α) : (pure a : Except PyErr α) = .ok a := rfl

theorem pyMapLoop_length {α : Type} (f : JVal → Except PyErr α) :
    ∀ (xs : List JVal) (ys : List α), pyMapLoop f xs = .ok ys → ys.length = xs.length := by
  intro xs
  induction xs with
  | nil => intro ys h; simp only [pyMapLoop] at h; cases h; rfl
  | cons x xs ih =>
    intro ys h
    simp only [pyMapLoop] at h
    cases hx : f x with
    | error e => rw [hx] at h; exact absurd h (by simp)
    | ok y =>
      rw [hx] at h
      cases htl : pyMapLoop f xs with
      | error e => rw [htl] at h; exact absurd h (by simp [Except.map])
      | ok ys2 =>
        rw [htl] at h
        simp only [Except.map, Except.ok.injEq] at h
        subst h
        simp [ih ys2 htl]

theorem pyMapLoop_get {α : Type} (f : JVal → Except PyErr α) :
    ∀ (xs : List JVal) (ys : List α), pyMapLoop f xs = .ok ys →
      ∀ (i : Nat) (h1 : i < xs.length) (h2 : i < ys.length),
        f (xs.get ⟨i, h1⟩) = .ok (ys.get ⟨i, h2⟩) := by
  intro xs
  induction xs with
  | nil => intro ys h i h1; exact absurd h1 (by simp)
  | cons x xs ih =>
    intro ys h i h1 h2
    simp only [pyMapLoop] at h
    cases hx : f x with
    | error e => rw [hx] at h; exact absurd h (by simp)
    | ok y =>
      rw [hx] at h
      cases htl : pyMapLoop f xs with
      | error e => rw [htl] at h; exact absurd h (by simp [Except.map])
      | ok ys2 =>
        rw [htl] at h
        simp only [Except.map, Except.ok.injEq] at h
        subst h
        cases i with
        | zero => simpa using hx
        | succ j =>
          simp only [List.get_cons_succ]
          exact ih ys2 htl j (by simpa using h1) (by simpa using h2)

theorem pyMapLoop_mem_ok {α : Type} (f : JVal → Except PyErr α) :
    ∀ (xs : List JVal) (ys : List α), pyMapLoop f xs = .ok ys →
      ∀ x ∈ xs, ∃ y, f x = .ok y := by
  intro xs
  induction xs with
  | nil => intro ys h x hx; exact absurd hx (by simp)
  | cons x xs ih =>
    intro ys h z hz
    simp only [pyMapLoop] at h
    cases hx : f x with
    | error e => rw [hx] at h; exact absurd h (by simp)
    | ok y =>
      rw [hx] at h
      cases htl : pyMapLoop f xs with
      | error e => rw [htl] at h; exact absurd h (by simp [Except.map])
      | ok ys2 =>
        rcases List.mem_cons.mp hz with hz | hz
        · exact ⟨y, hz ▸ hx⟩
        · exact ih ys2 htl z hz

theorem pyMapLoop_total {α : Type} (f : JVal → Except PyErr α) :
    ∀ (xs : List JVal), (∀ x ∈ xs, ∃ y, f x = .ok y) →
      ∃ ys, pyMapLoop f xs = .ok ys := by
  intro xs
  induction xs with
  | nil => intro _; exact ⟨[], rfl⟩
  | cons x xs ih =>
    intro hall
    obtain ⟨y, hy⟩ := hall x (by simp)
    obtain ⟨ys, hys⟩ := ih (fun z hz => hall z (by simp [hz]))
    exact ⟨y :: ys, by simp [pyMapLoop, hy, hys, Except.map]⟩

/-! ### C10: the error envelope makes `bing_search` raise -/

/-- C10: when the search client returns its in-band error envelope
`{"error": <message>}` (as it does on any HTTP or network failure),
`bing_search` neither returns that envelope serialized as JSON nor returns
an error string: `process_bing_search_results` unconditionally indexes
`queryContext`, which the envelope lacks, so the call raises
`KeyError("queryContext")`. -/
theorem bing_search_raises_on_error_envelope (msg : String) :
    bing_search_post (.jobj [("error", .jstr msg)]) = .error (.keyError "queryContext") := rfl

/-! ### C8: `formatLong` on a non-dict parsed value raises `ValueError` -/

/-- C8: for every input to `deduplicate_and_format_sources` whose parsed
value is not a dict — whether passed as an already-parsed value or as a
JSON string that decodes to a non-dict — the function raises
`ValueError("Input must be a dictionary")`. -/
theorem formatLong_nondict_raises_valueError :
    (∀ (v : JVal) (maxTok : Nat) (includeRaw : Bool), v.isObj = false →
      deduplicate_and_format_sources (.val v) maxTok includeRaw =
        .error (.valueError "Input must be a dictionary"))
    ∧ (∀ (s : String) (v : JVal) (maxTok : Nat) (includeRaw : Bool),
        json_loads s = .ok v → v.isObj = false →
        deduplicate_and_format_sources (.str s) maxTok includeRaw =
          .error (.valueError "Input must be a dictionary")) := by
  constructor
  · intro v maxTok includeRaw hv
    cases v <;> simp_all [deduplicate_and_format_sources, parseArg, JVal.isObj, pyBind_ok]
  · intro s v maxTok includeRaw hs hv
    cases v <;>
      simp_all [deduplicate_and_format_sources, parseArg, JVal.isObj, pyBind_ok]

/-- Witness for C8 at the JSON array `[1,2,3]`, in both parsed and string
form. -/
theorem formatLong_nondict_raises_valueError_witness :
    deduplicate_and_format_sources (.val (.jarr [.jnum 1, .jnum 2, .jnum 3])) 1000 true =
      .error (.valueError "Input must be a dictionary")
    ∧ json_loads "[1,2,3]" = .ok (.jarr [.jnum 1, .jnum 2, .jnum 3])
    ∧ deduplicate_and_format_sources (.str "[1,2,3]") 1000 true =
      .error (.valueError "Input must be a dictionary") :=
  ⟨formatLong_nondict_raises_valueError.1 (.jarr [.jnum 1, .jnum 2, .jnum 3]) 1000 true rfl,
   rfl,
   formatLong_nondict_raises_valueError.2 "[1,2,3]" (.jarr [.jnum 1, .jnum 2, .jnum 3])
     1000 true rfl rfl⟩

/-! ### The deduplication loop of `deduplicate_and_format_sources` -/

/-- Invariant of a pair stored by the deduplication dict: the source is a
dict whose `url` field is exactly the stored key, and that key is truthy. -/
def GoodPair (p : JVal × JVal) : Prop :=
  ∃ fs, p.2 = JVal.jobj fs ∧ fs.lookup "url" = some p.1 ∧ jtruthy p.1 = true

theorem pyGet_ok_inv {s : JVal} {key : String} {dflt u : JVal}
    (h : pyGet s key dflt = .ok u) :
    ∃ fs, s = JVal.jobj fs ∧ (fs.lookup key).getD dflt = u := by
  cases s <;> simp only [pyGet, Except.ok.injEq, reduceCtorEq] at h
  case jobj fs => exact ⟨fs, rfl, h⟩

theorem lookup_eq_of_truthy {fs : List (String × JVal)} {key : String} {u : JVal}
    (hget : (fs.lookup key).getD JVal.jnull = u) (ht : jtruthy u = true) :
    fs.lookup key = some u := by
  cases hl : fs.lookup key with
  | none => rw [hl] at hget; simp at hget; rw [← hget] at ht; simp [jtruthy] at ht
  | some w => rw [hl] at hget; simp at hget; rw [hget]

instance : DecidableEq (Except PyErr JVal) := fun a b =>
  match a, b with
  | .error e, .error f => decidable_of_iff (e = f) (by simp)
  | .ok x, .ok y => decidable_of_iff (x = y) (by simp)
  | .error _, .ok _ => isFalse (by simp)
  | .ok _, .error _ => isFalse (by simp)

theorem dedupStep_err_get {acc : List (JVal × JVal)} {s : JVal} {e : PyErr}
    (hg : pyGet s "url" JVal.jnull = .error e) : dedupStep acc s = .error e := by
  simp [dedupStep, hg, pyBind_error]

theorem dedupStep_drop_falsy {acc : List (JVal × JVal)} {s url : JVal}
    (hg : pyGet s "url" JVal.jnull = .ok url) (ht : jtruthy url = false) :
    dedupStep acc s = .ok acc := by
  simp [dedupStep, hg, pyBind_ok, pyPure_eq, ht]

theorem dedupStep_err_unhashable {acc : List (JVal × JVal)} {s url : JVal}
    (hg : pyGet s "url" JVal.jnull = .ok url) (ht : jtruthy url = true)
    (hu : unhashable url = true) :
    dedupStep acc s = .error (.typeError ("unhashable type: " ++ qt (pyTypeName url))) := by
  simp [dedupStep, hg, pyBind_ok, pyPure_eq, ht, hu]

theorem dedupStep_drop_seen {acc : List (JVal × JVal)} {s url : JVal}
    (hg : pyGet s "url" JVal.jnull = .ok url) (ht : jtruthy url = true)
    (hu : unhashable url = false) (hmem : (acc.map Prod.fst).contains url = true) :
    dedupStep acc s = .ok acc := by
  simp [dedupStep, hg, pyBind_ok, pyPure_eq, ht, hu]
  simpa using hmem

theorem dedupStep_append {acc : List (JVal × JVal)} {s url : JVal}
    (hg : pyGet s "url" JVal.jnull = .ok url) (ht : jtruthy url = true)
    (hu : unhashable url = false) (hmem : (acc.map Prod.fst).contains url = false) :
    dedupStep acc s = .ok (acc ++ [(url, s)]) := by
  simp [dedupStep, hg, pyBind_ok, pyPure_eq, ht, hu]
  simpa using hmem

theorem dedupLoop_spec :
    ∀ (l : List JVal) (acc out : List (JVal × JVal)), dedupLoop l acc = .ok out →
      ∃ suffix,
        out = acc ++ suffix ∧
        (suffix.map Prod.snd).Sublist l ∧
        (∀ p ∈ suffix, GoodPair p ∧ p.1 ∉ acc.map Prod.fst ∧
          l.find? (fun s => decide (pyGet s "url" JVal.jnull = .ok p.1)) = some p.2) ∧
        (suffix.map Prod.fst).Nodup ∧
        (∀ s ∈ l, ∀ u, pyGet s "url" JVal.jnull = .ok u → jtruthy u = true →
          u ∈ acc.map Prod.fst ∨ u ∈ suffix.map Prod.fst) := by
  intro l
  induction l with
  | nil =>
    intro acc out h
    simp only [dedupLoop, Except.ok.injEq] at h
    exact ⟨[], by simp [h.symm]⟩
  | cons s rest ih =>
    intro acc out h
    simp only [dedupLoop] at h
    cases hg : pyGet s "url" JVal.jnull with
    | error e => rw [dedupStep_err_get hg] at h; exact absurd h (by simp)
    | ok url =>
      by_cases ht : jtruthy url = true
      · by_cases hu : unhashable url = true
        · rw [dedupStep_err_unhashable hg ht hu] at h; exact absurd h (by simp)
        · rw [Bool.not_eq_true] at hu
          by_cases hmem : (acc.map Prod.fst).contains url = true
          · -- url already a key of the dict: the source is dropped
            rw [dedupStep_drop_seen hg ht hu hmem] at h
            have hmem2 : url ∈ acc.map Prod.fst := by simpa using hmem
            obtain ⟨suffix, ho, hsub, hall, hnd, hcomp⟩ := ih acc out h
            refine ⟨suffix, ho, hsub.cons s, ?_, hnd, ?_⟩
            · intro p hp
              obtain ⟨hgood, hnin, hfind⟩ := hall p hp
              refine ⟨hgood, hnin, ?_⟩
              rw [List.find?_cons_of_neg _ ?_, hfind]
              simp only [decide_eq_true_eq, hg, Except.ok.injEq]
              intro hequ
              exact hnin (hequ ▸ hmem2)
            · intro z hz u hzu htu
              rcases List.mem_cons.mp hz with hz | hz
              · subst hz
                rw [hg] at hzu
                cases hzu
                exact Or.inl hmem2
              · exact hcomp z hz u hzu htu
          · -- new url: the pair is appended to the dict
            rw [Bool.not_eq_true] at hmem
            rw [dedupStep_append hg ht hu hmem] at h
            have hninacc : url ∉ acc.map Prod.fst := by
              intro hcon
              rw [show ((acc.map Prod.fst).contains url) = true by simpa using hcon] at hmem
              cases hmem
            obtain ⟨suffix, ho, hsub, hall, hnd, hcomp⟩ := ih (acc ++ [(url, s)]) out h
            obtain ⟨fs, hfs, hfslookup⟩ := pyGet_ok_inv hg
            have hlook : fs.lookup "url" = some url := lookup_eq_of_truthy hfslookup ht
            have hkeys : (acc ++ [(url, s)]).map Prod.fst = acc.map Prod.fst ++ [url] := by
              simp
            refine ⟨(url, s) :: suffix, by simpa using ho, by simpa using hsub.cons₂ s,
              ?_, ?_, ?_⟩
            · intro p hp
              rcases List.mem_cons.mp hp with hp | hp
              · subst hp
                refine ⟨⟨fs, hfs, hlook, ht⟩, hninacc, ?_⟩
                rw [List.find?_cons_of_pos]
                simp [hg]
              · obtain ⟨hgood, hnin, hfind⟩ := hall p hp
                rw [hkeys] at hnin
                have hnacc : p.1 ∉ acc.map Prod.fst := fun hc =>
                  hnin (List.mem_append.mpr (Or.inl hc))
                have hnurl : p.1 ≠ url := fun hc =>
                  hnin (List.mem_append.mpr (Or.inr (by simp [hc])))
                refine ⟨hgood, hnacc, ?_⟩
                rw [List.find?_cons_of_neg _ ?_, hfind]
                simp only [decide_eq_true_eq, hg, Except.ok.injEq]
                exact fun hc => hnurl hc.symm
            · rw [List.map_cons, List.nodup_cons]
              refine ⟨?_, hnd⟩
              intro hcon
              obtain ⟨q, hq, hq1⟩ := List.mem_map.mp hcon
              have := (hall q hq).2.1
              rw [hkeys] at this
              exact this (List.mem_append.mpr (Or.inr (by simp [hq1])))
            · intro z hz u hzu htu
              rcases List.mem_cons.mp hz with hz | hz
              · subst hz
                rw [hg] at hzu
                cases hzu
                exact Or.inr (by simp)
              · rcases hcomp z hz u hzu htu with hin | hin
                · rw [hkeys] at hin
                  rcases List.mem_append.mp hin with hin | hin
                  · exact Or.inl hin
                  · simp only [List.mem_singleton] at hin
                    exact Or.inr (by simp [hin])
                · exact Or.inr (by simp [hin])
      · -- falsy url (absent, null, empty string, …): the source is dropped
        rw [Bool.not_eq_true] at ht
        rw [dedupStep_drop_falsy hg ht] at h
        obtain ⟨suffix, ho, hsub, hall, hnd, hcomp⟩ := ih acc out h
        refine ⟨suffix, ho, hsub.cons s, ?_, hnd, ?_⟩
        · intro p hp
          obtain ⟨hgood, hnin, hfind⟩ := hall p hp
          refine ⟨hgood, hnin, ?_⟩
          rw [List.find?_cons_of_neg _ ?_, hfind]
          simp only [decide_eq_true_eq, hg, Except.ok.injEq]
          intro hequ
          obtain ⟨_, _, _, htp⟩ := hgood
          rw [← hequ] at htp
          rw [htp] at ht
          simp at ht
        · intro z hz u hzu htu
          rcases List.mem_cons.mp hz with hz | hz
          · subst hz
            rw [hg] at hzu
            cases hzu
            rw [htu] at ht
            cases ht
          · exact hcomp z hz u hzu htu

theorem formatLong_obj_results (fs : List (String × JVal)) (l : List JVal)
    (maxTok : Nat) (includeRaw : Bool) (hres : fs.lookup "results" = some (.jarr l)) :
    deduplicate_and_format_sources (.val (.jobj fs)) maxTok includeRaw =
      (do
        let uniq ← dedupLoop l []
        let blocks ← pyMapLoop (formatBlock maxTok includeRaw) (uniq.map Prod.snd)
        pure ("Sources:\n\n" ++ String.join blocks)) := by
  simp [deduplicate_and_format_sources, parseArg, pyBind_ok, hres, pyIter]

/-! ### C1: a source with no url never reaches the formatted output -/

/-- C1 counterexample: on `{"results": [{"title": "T", "snippet": "S"}]}`
— one result with no `url` field — `deduplicate_and_format_sources`
returns just the header `"Sources:\n\n"`. The url-less result does not
appear at all (contradicting the claim that it appears with the URL line
`"URL: [No URL]"`): the deduplication loop drops any source whose
`source.get('url')` is falsy before the formatting loop runs. -/
theorem formatLong_missing_url_source_dropped :
    deduplicate_and_format_sources
      (.val (.jobj [("results", .jarr [.jobj [("title", .jstr "T"), ("snippet", .jstr "S")]])]))
      1000 true = .ok "Sources:\n\n"
    ∧ isSubstrOf "[No URL]" "Sources:\n\n" = false := ⟨rfl, rfl⟩

/-- C1 (amended): in `deduplicate_and_format_sources`, a source without a
url (or with a falsy url) is dropped by the deduplication stage and does
not appear in the output; every source that survives to the formatting
loop is a dict with a truthy `url` field, so `source.get('url', '[No URL]')`
always finds the real url and the `"[No URL]"` fallback is unreachable. -/
theorem formatLong_url_fallback_unreachable :
    ∀ (l : List JVal) (out : List (JVal × JVal)), dedupLoop l [] = .ok out →
      ∀ p ∈ out, ∃ fs, p.2 = JVal.jobj fs ∧ fs.lookup "url" = some p.1 ∧
        jtruthy p.1 = true ∧ pyGet p.2 "url" (.jstr "[No URL]") = .ok p.1 := by
  intro l out h p hp
  obtain ⟨suffix, ho, _, hall, _, _⟩ := dedupLoop_spec l [] out h
  simp only [List.nil_append] at ho
  subst ho
  obtain ⟨⟨fs, hfs, hlook, htr⟩, _, _⟩ := hall p hp
  exact ⟨fs, hfs, hlook, htr, by simp [pyGet, hfs, hlook]⟩

/-- Witness for the amended C1 at a source that does carry a url. -/
theorem formatLong_url_fallback_unreachable_witness :
    ∃ fs, (JVal.jobj [("url", JVal.jstr "u"), ("title", JVal.jstr "T")] : JVal) = JVal.jobj fs ∧
      fs.lookup "url" = some (JVal.jstr "u") ∧ jtruthy (JVal.jstr "u") = true ∧
      pyGet (JVal.jobj [("url", JVal.jstr "u"), ("title", JVal.jstr "T")]) "url"
        (.jstr "[No URL]") = .ok (JVal.jstr "u") :=
  formatLong_url_fallback_unreachable
    [.jobj [("url", .jstr "u"), ("title", .jstr "T")]]
    [(.jstr "u", .jobj [("url", .jstr "u"), ("title", .jstr "T")])]
    rfl (.jstr "u", .jobj [("url", .jstr "u"), ("title", .jstr "T")]) (by simp)

/-! ### C4: deduplication by url, first occurrence wins, first-seen order -/

/-- C4: the deduplication of `deduplicate_and_format_sources` keeps, for
each url, exactly the first source carrying it: the formatter consumes
exactly the dedup survivors in order; the survivors form a subsequence of
the input (first-seen order); no two survivors share a url; each survivor
is the *first* source in the input with its url (so of two sources with
the same url and different titles, the first-seen title is retained); and
every truthy url of the input is represented. -/
theorem formatLong_dedup_first_url_wins :
    ∀ (fs : List (String × JVal)) (l : List JVal) (out : List (JVal × JVal))
      (maxTok : Nat) (includeRaw : Bool),
      fs.lookup "results" = some (.jarr l) → dedupLoop l [] = .ok out →
      (deduplicate_and_format_sources (.val (.jobj fs)) maxTok includeRaw =
        (pyMapLoop (formatBlock maxTok includeRaw) (out.map Prod.snd)).map
          (fun blocks => "Sources:\n\n" ++ String.join blocks)) ∧
      ((out.map Prod.snd).Sublist l) ∧
      (out.map Prod.fst).Nodup ∧
      (∀ p ∈ out, l.find? (fun s => decide (pyGet s "url" JVal.jnull = .ok p.1)) = some p.2) ∧
      (∀ s ∈ l, ∀ u, pyGet s "url" JVal.jnull = .ok u → jtruthy u = true →
        u ∈ out.map Prod.fst) := by
  intro fs l out maxTok includeRaw hres h
  obtain ⟨suffix, ho, hsub, hall, hnd, hcomp⟩ := dedupLoop_spec l [] out h
  simp only [List.nil_append] at ho
  subst ho
  refine ⟨?_, hsub, hnd, fun p hp => (hall p hp).2.2, fun s hs u hu ht => ?_⟩
  · rw [formatLong_obj_results fs l maxTok includeRaw hres]
    rw [h]
    cases hpm : pyMapLoop (formatBlock maxTok includeRaw) (out.map Prod.snd) <;>
      simp [pyBind_ok, hpm, Except.map, Functor.map]
  · rcases hcomp s hs u hu ht with hin | hin
    · simp at hin
    · exact hin

/-- Witness for C4: two sources share url `"u"` with different titles;
the first one is selected, and the formatter runs over exactly the first
`"u"` source and the later `"v"` source, in input order. -/
theorem formatLong_dedup_first_url_wins_witness :
    ([JVal.jobj [("title", JVal.jstr "T1"), ("url", JVal.jstr "u")],
      JVal.jobj [("title", JVal.jstr "T2"), ("url", JVal.jstr "u")],
      JVal.jobj [("title", JVal.jstr "T3"), ("url", JVal.jstr "v")]].find?
        (fun s => decide (pyGet s "url" JVal.jnull = .ok (JVal.jstr "u"))) =
      some (JVal.jobj [("title", JVal.jstr "T1"), ("url", JVal.jstr "u")]))
    ∧ deduplicate_and_format_sources
        (.val (.jobj [("results", .jarr
          [.jobj [("title", .jstr "T1"), ("url", .jstr "u")],
           .jobj [("title", .jstr "T2"), ("url", .jstr "u")],
           .jobj [("title", .jstr "T3"), ("url", .jstr "v")]])])) 1000 true =
      (pyMapLoop (formatBlock 1000 true)
        [.jobj [("title", .jstr "T1"), ("url", .jstr "u")],
         .jobj [("title", .jstr "T3"), ("url", .jstr "v")]]).map
        (fun blocks => "Sources:\n\n" ++ String.join blocks) :=
  ⟨(formatLong_dedup_first_url_wins
      [("results", .jarr
          [.jobj [("title", .jstr "T1"), ("url", .jstr "u")],
           .jobj [("title", .jstr "T2"), ("url", .jstr "u")],
           .jobj [("title", .jstr "T3"), ("url", .jstr "v")]])]
      [.jobj [("title", .jstr "T1"), ("url", .jstr "u")],
       .jobj [("title", .jstr "T2"), ("url", .jstr "u")],
       .jobj [("title", .jstr "T3"), ("url", .jstr "v")]]
      [(.jstr "u", .jobj [("title", .jstr "T1"), ("url", .jstr "u")]),
       (.jstr "v", .jobj [("title", .jstr "T3"), ("url", .jstr "v")])]
      1000 true rfl rfl).2.2.2.1
      (.jstr "u", .jobj [("title", .jstr "T1"), ("url", .jstr "u")]) (by simp),
   (formatLong_dedup_first_url_wins
      [("results", .jarr
          [.jobj [("title", .jstr "T1"), ("url", .jstr "u")],
           .jobj [("title", .jstr "T2"), ("url", .jstr "u")],
           .jobj [("title", .jstr "T3"), ("url", .jstr "v")]])]
      [.jobj [("title", .jstr "T1"), ("url", .jstr "u")],
       .jobj [("title", .jstr "T2"), ("url", .jstr "u")],
       .jobj [("title", .jstr "T3"), ("url", .jstr "v")]]
      [(.jstr "u", .jobj [("title", .jstr "T1"), ("url", .jstr "u")]),
       (.jstr "v", .jobj [("title", .jstr "T3"), ("url", .jstr "v")])]
      1000 true rfl rfl).1⟩

/-! ### Inversion lemmas for the normalizer -/

theorem pyIndex_obj_ok {fs : List (String × JVal)} {key : String} {w : JVal}
    (h : pyIndex (JVal.jobj fs) key = .ok w) : fs.lookup key = some w := by
  cases hl : fs.lookup key with
  | none => simp [pyIndex, hl] at h
  | some u => simp only [pyIndex, hl, Except.ok.injEq] at h; rw [h]

theorem pyIndex_ok_inv {v : JVal} {key : String} {w : JVal}
    (h : pyIndex v key = .ok w) : ∃ fs, v = JVal.jobj fs ∧ fs.lookup key = some w := by
  cases v with
  | jobj fs => exact ⟨fs, rfl, pyIndex_obj_ok h⟩
  | jnull => simp [pyIndex] at h
  | jbool b => simp [pyIndex] at h
  | jnum n => simp [pyIndex] at h
  | jstr s => simp [pyIndex] at h
  | jarr xs => simp [pyIndex] at h

theorem lookup_any {fs : List (String × JVal)} {key : String} {w : JVal}
    (h : fs.lookup key = some w) : (fs.any (fun p => p.1 == key)) = true := by
  induction fs with
  | nil => simp [List.lookup] at h
  | cons f rest ih =>
    obtain ⟨k, v⟩ := f
    by_cases hkk : key = k
    · subst hkk; simp
    · rw [List.lookup, show (key == k) = false by simpa using hkk] at h
      simp only at h
      simp [List.any_cons, ih h]

theorem process_ok_inv {data resp : JVal}
    (hp : process_bing_search_results data = .ok resp) :
    ∃ query wc results ic images,
      queryExtract data = .ok query ∧
      webPagesCond data = .ok wc ∧
      guarded wc (webResults data) = .ok results ∧
      imagesCond data = .ok ic ∧
      guarded ic (imageResults data) = .ok images ∧
      resp = .jobj [("answer", .jnull), ("follow_up_questions", .jnull),
                    ("images", .jarr images), ("query", query),
                    ("response_time", .jnull), ("results", .jarr results)] := by
  cases h1 : queryExtract data with
  | error e => simp [process_bing_search_results, h1, pyBind_error] at hp
  | ok query =>
    cases h2 : webPagesCond data with
    | error e => simp [process_bing_search_results, h1, h2, pyBind_ok, pyBind_error] at hp
    | ok wc =>
      cases h3 : guarded wc (webResults data) with
      | error e =>
        simp [process_bing_search_results, h1, h2, h3, pyBind_ok, pyBind_error] at hp
      | ok results =>
        cases h4 : imagesCond data with
        | error e =>
          simp [process_bing_search_results, h1, h2, h3, h4, pyBind_ok, pyBind_error] at hp
        | ok ic =>
          cases h5 : guarded ic (imageResults data) with
          | error e =>
            simp [process_bing_search_results, h1, h2, h3, h4, h5, pyBind_ok,
              pyBind_error] at hp
          | ok images =>
            refine ⟨query, wc, results, ic, images, rfl, rfl, h3, rfl, h5, ?_⟩
            simp only [process_bing_search_results, h1, h2, h3, h4, h5, pyBind_ok,
              pyPure_eq, Except.ok.injEq] at hp
            exact hp.symm

theorem webPagesCond_of_value {data wp vv : JVal}
    (hw : pyIndex data "webPages" = .ok wp) (hv : pyIndex wp "value" = .ok vv) :
    webPagesCond data = .ok true := by
  obtain ⟨dfs, hd, hdl⟩ := pyIndex_ok_inv hw
  obtain ⟨wfs, hwf, hwl⟩ := pyIndex_ok_inv hv
  subst hd
  subst hwf
  simp [webPagesCond, pyContains, pyBind_ok, lookup_any hdl, hw, lookup_any hwl]

theorem imagesCond_of_value {data iv vv : JVal}
    (hw : pyIndex data "images" = .ok iv) (hv : pyIndex iv "value" = .ok vv) :
    imagesCond data = .ok true := by
  obtain ⟨dfs, hd, hdl⟩ := pyIndex_ok_inv hw
  obtain ⟨wfs, hwf, hwl⟩ := pyIndex_ok_inv hv
  subst hd
  subst hwf
  simp [imagesCond, pyContains, pyBind_ok, lookup_any hdl, hw, lookup_any hwl]

theorem processWebResult_ok_inv {e r : JVal} (h : processWebResult e = .ok r) :
    ∃ fs snip nm u, e = .jobj fs ∧ fs.lookup "snippet" = some snip ∧
      fs.lookup "name" = some nm ∧ fs.lookup "url" = some u ∧
      r = .jobj [("content", snip), ("raw_content", snip),
                 ("score", .jnum 0), ("title", nm), ("url", u)] := by
  cases h1 : pyIndex e "snippet" with
  | error e2 => simp [processWebResult, h1, pyBind_error] at h
  | ok snip =>
    obtain ⟨fs, hfs, hl⟩ := pyIndex_ok_inv h1
    subst hfs
    cases h3 : pyIndex (JVal.jobj fs) "name" with
    | error e2 => simp [processWebResult, h1, h3, pyGet, pyBind_ok, pyBind_error] at h
    | ok nm =>
      cases h4 : pyIndex (JVal.jobj fs) "url" with
      | error e2 => simp [processWebResult, h1, h3, h4, pyGet, pyBind_ok, pyBind_error] at h
      | ok u =>
        refine ⟨fs, snip, nm, u, rfl, hl, pyIndex_obj_ok h3, pyIndex_obj_ok h4, ?_⟩
        simp only [processWebResult, h1, h3, h4, pyGet, pyBind_ok, pyPure_eq,
          Except.ok.injEq] at h
        rw [← h]
        simp [hl]

theorem processImage_ok_inv {e r : JVal} (h : processImage e = .ok r) :
    ∃ fs cu, e = .jobj fs ∧ fs.lookup "contentUrl" = some cu ∧
      r = .jobj [("url", cu),
                 ("thumbnail_url", (fs.lookup "thumbnailUrl").getD (.jstr "")),
                 ("title", (fs.lookup "name").getD (.jstr ""))] := by
  cases h1 : pyIndex e "contentUrl" with
  | error e2 => simp [processImage, h1, pyBind_error] at h
  | ok cu =>
    obtain ⟨fs, hfs, hl⟩ := pyIndex_ok_inv h1
    subst hfs
    refine ⟨fs, cu, rfl, hl, ?_⟩
    simp only [processImage, h1, pyGet, pyBind_ok, pyPure_eq, Except.ok.injEq] at h
    exact h.symm

/-- Sample web entry carrying all three required fields. -/
def sampleEntry : JVal :=
  .jobj [("snippet", .jstr "S"), ("name", .jstr "N"), ("url", .jstr "U")]

/-- Sample raw response with a query and one web result. -/
def sampleWebData : JVal :=
  .jobj [("queryContext", .jobj [("originalQuery", .jstr "q")]),
         ("webPages", .jobj [("value", .jarr [sampleEntry])])]

/-- The normalized response the model produces for `sampleWebData`. -/
def sampleWebResp : JVal :=
  .jobj [("answer", .jnull), ("follow_up_questions", .jnull),
         ("images", .jarr []), ("query", .jstr "q"), ("response_time", .jnull),
         ("results", .jarr [.jobj [("content", .jstr "S"), ("raw_content", .jstr "S"),
           ("score", .jnum 0), ("title", .jstr "N"), ("url", .jstr "U")]])]

/-! ### C5: web results are normalized one-to-one, in order -/

/-- C5: whenever `process_bing_search_results` succeeds on a response whose
`webPages.value` holds `entries`, the normalized `results` list has exactly
as many entries, in the same order, and the `i`-th result's `content` and
`raw_content` both equal the `i`-th entry's `snippet` while its `score` is
`0`. -/
theorem process_results_match_webpages :
    ∀ (data resp wp : JVal) (entries : List JVal),
      process_bing_search_results data = .ok resp →
      pyIndex data "webPages" = .ok wp →
      pyIndex wp "value" = .ok (.jarr entries) →
      ∃ rs : List JVal,
        pyIndex resp "results" = .ok (.jarr rs) ∧
        rs.length = entries.length ∧
        ∀ (i : Nat) (h1 : i < entries.length) (h2 : i < rs.length),
          ∃ efs snip, entries.get ⟨i, h1⟩ = JVal.jobj efs ∧
            efs.lookup "snippet" = some snip ∧
            pyIndex (rs.get ⟨i, h2⟩) "content" = .ok snip ∧
            pyIndex (rs.get ⟨i, h2⟩) "raw_content" = .ok snip ∧
            pyIndex (rs.get ⟨i, h2⟩) "score" = .ok (.jnum 0) := by
  intro data resp wp entries hp hw hv
  obtain ⟨query, wc, results, ic, images, h1, h2, h3, h4, h5, hresp⟩ := process_ok_inv hp
  have hwc : wc = true := by
    have hh := webPagesCond_of_value hw hv
    rw [h2] at hh
    simpa using hh
  subst hwc
  have hweb : webResults data = .ok results := by simpa [guarded] using h3
  have hmap : pyMapLoop processWebResult entries = .ok results := by
    simp only [webResults, hw, hv, pyIter, pyBind_ok] at hweb
    exact hweb
  refine ⟨results, ?_, pyMapLoop_length processWebResult entries results hmap, ?_⟩
  · rw [hresp]
    simp [pyIndex, List.lookup]
  · intro i hi1 hi2
    have hr := pyMapLoop_get processWebResult entries results hmap i hi1 hi2
    obtain ⟨efs, snip, nm, u, hefs, hsn, hnm, hu, hr2⟩ := processWebResult_ok_inv hr
    refine ⟨efs, snip, hefs, hsn, ?_, ?_, ?_⟩ <;> (rw [hr2]; simp [pyIndex, List.lookup])

/-- Witness for C5 on a one-entry response. -/
theorem process_results_match_webpages_witness :
    ∃ rs : List JVal, pyIndex sampleWebResp "results" = .ok (.jarr rs) ∧ rs.length = 1 := by
  obtain ⟨rs, ha, hb, _⟩ := process_results_match_webpages sampleWebData sampleWebResp
    (.jobj [("value", .jarr [sampleEntry])]) [sampleEntry] rfl rfl rfl
  exact ⟨rs, ha, by simpa using hb⟩

/-! ### C6: at most the first ten images are kept, with defaults -/

/-- C6: whenever `process_bing_search_results` succeeds on a response whose
`images.value` holds at least ten entries, the normalized `images` list has
exactly ten entries, drawn from the first ten in order; each keeps its
entry's `contentUrl` as `url`, and `thumbnail_url` / `title` fall back to
the empty string when `thumbnailUrl` / `name` are missing. -/
theorem process_images_first_ten :
    ∀ (data resp iv : JVal) (entries : List JVal),
      process_bing_search_results data = .ok resp →
      pyIndex data "images" = .ok iv →
      pyIndex iv "value" = .ok (.jarr entries) →
      10 ≤ entries.length →
      ∃ ims : List JVal,
        pyIndex resp "images" = .ok (.jarr ims) ∧
        ims.length = 10 ∧
        ∀ (i : Nat) (h2 : i < ims.length) (h3 : i < entries.length),
          ∃ efs cu, entries.get ⟨i, h3⟩ = JVal.jobj efs ∧
            efs.lookup "contentUrl" = some cu ∧
            pyIndex (ims.get ⟨i, h2⟩) "url" = .ok cu ∧
            pyIndex (ims.get ⟨i, h2⟩) "thumbnail_url" =
              .ok ((efs.lookup "thumbnailUrl").getD (.jstr "")) ∧
            pyIndex (ims.get ⟨i, h2⟩) "title" =
              .ok ((efs.lookup "name").getD (.jstr "")) := by
  intro data resp iv entries hp hw hv hlen
  obtain ⟨query, wc, results, ic, images, h1, h2, h3, h4, h5, hresp⟩ := process_ok_inv hp
  have hic : ic = true := by
    have hh := imagesCond_of_value hw hv
    rw [h4] at hh
    simpa using hh
  subst hic
  have himg : imageResults data = .ok images := by simpa [guarded] using h5
  have hmap : pyMapLoop processImage (entries.take 10) = .ok images := by
    simp only [imageResults, hw, hv, pySliceTo, pyIter, pyBind_ok] at himg
    exact himg
  have hlen10 : images.length = 10 := by
    rw [pyMapLoop_length processImage (entries.take 10) images hmap]
    simp only [List.length_take]
    omega
  refine ⟨images, ?_, hlen10, ?_⟩
  · rw [hresp]
    simp [pyIndex, List.lookup]
  · intro i hi2 hi3
    have hi1 : i < (entries.take 10).length := by
      simp only [List.length_take]
      omega
    have hr := pyMapLoop_get processImage (entries.take 10) images hmap i hi1 hi2
    obtain ⟨efs, cu, hefs, hcu, hr2⟩ := processImage_ok_inv hr
    have htake : (entries.take 10).get ⟨i, hi1⟩ = entries.get ⟨i, hi3⟩ := by
      simp [List.get_eq_getElem, List.getElem_take]
    rw [htake] at hefs
    refine ⟨efs, cu, hefs, hcu, ?_, ?_, ?_⟩ <;> (rw [hr2]; simp [pyIndex, List.lookup])

/-- Witness for C6 on a response with twelve identical image entries, each
lacking `thumbnailUrl` and `name`. -/
theorem process_images_first_ten_witness :
    ∃ ims : List JVal,
      pyIndex (.jobj [("answer", .jnull), ("follow_up_questions", .jnull),
        ("images", .jarr (List.replicate 10
          (.jobj [("url", .jstr "cu"), ("thumbnail_url", .jstr ""), ("title", .jstr "")]))),
        ("query", .jstr "q"), ("response_time", .jnull), ("results", .jarr [])])
        "images" = .ok (.jarr ims) ∧ ims.length = 10 := by
  obtain ⟨ims, ha, hb, _⟩ := process_images_first_ten
    (.jobj [("queryContext", .jobj [("originalQuery", .jstr "q")]),
            ("images", .jobj [("value", .jarr (List.replicate 12
              (.jobj [("contentUrl", .jstr "cu")])))])])
    (.jobj [("answer", .jnull), ("follow_up_questions", .jnull),
        ("images", .jarr (List.replicate 10
          (.jobj [("url", .jstr "cu"), ("thumbnail_url", .jstr ""), ("title", .jstr "")]))),
        ("query", .jstr "q"), ("response_time", .jnull), ("results", .jarr [])])
    (.jobj [("value", .jarr (List.replicate 12 (.jobj [("contentUrl", .jstr "cu")])))])
    (List.replicate 12 (.jobj [("contentUrl", .jstr "cu")]))
    rfl rfl rfl (by simp)
  exact ⟨ims, ha, hb⟩

/-! ### C3: which fields the normalizer actually requires -/

/-- C3 counterexample: a raw response that *does* contain
`queryContext.originalQuery` but whose single web entry is the empty dict
still throws: `process_bing_search_results` raises `KeyError("snippet")`,
refuting "fails if and only if `queryContext.originalQuery` is absent". -/
theorem process_throws_despite_query_present :
    queryExtract (.jobj [("queryContext", .jobj [("originalQuery", .jstr "q")]),
      ("webPages", .jobj [("value", .jarr [.jobj []])])]) = .ok (.jstr "q")
    ∧ process_bing_search_results (.jobj [("queryContext", .jobj [("originalQuery", .jstr "q")]),
      ("webPages", .jobj [("value", .jarr [.jobj []])])]) = .error (.keyError "snippet") :=
  ⟨rfl, rfl⟩

/-- C3 (amended): the normalizer throws whenever
`raw.queryContext.originalQuery` is absent (that failure propagates
unchanged), but that is not the only required field: every processed
`webPages.value` entry must carry `snippet`, `name` and `url` (success
implies their presence); fields such as an image's `thumbnailUrl` and
`name` are genuinely optional, defaulting to the empty string. -/
theorem process_required_fields :
    (∀ (data : JVal) (e : PyErr), queryExtract data = .error e →
      process_bing_search_results data = .error e)
    ∧ (∀ (data resp wp : JVal) (entries : List JVal),
        process_bing_search_results data = .ok resp →
        pyIndex data "webPages" = .ok wp →
        pyIndex wp "value" = .ok (.jarr entries) →
        ∀ s ∈ entries, ∃ fs, s = JVal.jobj fs ∧
          (fs.lookup "snippet").isSome ∧ (fs.lookup "name").isSome ∧
          (fs.lookup "url").isSome)
    ∧ process_bing_search_results (.jobj [("queryContext", .jobj [("originalQuery", .jstr "q")]),
        ("images", .jobj [("value", .jarr [.jobj [("contentUrl", .jstr "cu")]])])]) =
      .ok (.jobj [("answer", .jnull), ("follow_up_questions", .jnull),
        ("images", .jarr [.jobj [("url", .jstr "cu"), ("thumbnail_url", .jstr ""),
          ("title", .jstr "")]]),
        ("query", .jstr "q"), ("response_time", .jnull), ("results", .jarr [])]) := by
  refine ⟨?_, ?_, rfl⟩
  · intro data e he
    simp [process_bing_search_results, he, pyBind_error]
  · intro data resp wp entries hp hw hv s hs
    obtain ⟨query, wc, results, ic, images, h1, h2, h3, h4, h5, hresp⟩ := process_ok_inv hp
    have hwc : wc = true := by
      have hh := webPagesCond_of_value hw hv
      rw [h2] at hh
      simpa using hh
    subst hwc
    have hweb : webResults data = .ok results := by simpa [guarded] using h3
    have hmap : pyMapLoop processWebResult entries = .ok results := by
      simp only [webResults, hw, hv, pyIter, pyBind_ok] at hweb
      exact hweb
    obtain ⟨r, hr⟩ := pyMapLoop_mem_ok processWebResult entries results hmap s hs
    obtain ⟨fs, snip, nm, u, hefs, hsn, hnm, hu, _⟩ := processWebResult_ok_inv hr
    exact ⟨fs, hefs, by simp [hsn], by simp [hnm], by simp [hu]⟩

/-- Witness for the amended C3: the query-less envelope raises its
`KeyError`, and the sample entry of a successful run carries all three
required fields. -/
theorem process_required_fields_witness :
    process_bing_search_results (.jobj []) = .error (.keyError "queryContext")
    ∧ (∃ fs, sampleEntry = JVal.jobj fs ∧
        (fs.lookup "snippet").isSome ∧ (fs.lookup "name").isSome ∧
        (fs.lookup "url").isSome) :=
  ⟨process_required_fields.1 (.jobj []) (.keyError "queryContext") rfl,
   process_required_fields.2.1 sampleWebData sampleWebResp
     (.jobj [("value", .jarr [sampleEntry])]) [sampleEntry] rfl rfl rfl
     sampleEntry (by simp)⟩

/-! ### C7: the bullet-list formatter on dict input -/

theorem isObj_inv {v : JVal} (h : v.isObj = true) : ∃ fs, v = JVal.jobj fs := by
  cases v <;> simp [JVal.isObj] at h
  case jobj fs => exact ⟨fs, rfl⟩

theorem bulletOf_obj (fs2 : List (String × JVal)) :
    bulletOf (.jobj fs2) = .ok ("* " ++ pyStr ((fs2.lookup "title").getD (.jstr "No Title"))
      ++ " : " ++ pyStr ((fs2.lookup "url").getD (.jstr "No URL"))) := rfl

theorem bulletsLoop_obj : ∀ xs : List JVal, (∀ s ∈ xs, s.isObj = true) →
    pyMapLoop bulletOf xs = .ok (xs.map (fun s =>
      "* " ++ pyStr (((jfields s).lookup "title").getD (.jstr "No Title"))
      ++ " : " ++ pyStr (((jfields s).lookup "url").getD (.jstr "No URL")))) := by
  intro xs
  induction xs with
  | nil => intro _; rfl
  | cons s rest ih =>
    intro hall
    obtain ⟨fs2, hfs2⟩ := isObj_inv (hall s (by simp))
    subst hfs2
    simp only [pyMapLoop, bulletOf_obj, ih (fun z hz => hall z (by simp [hz])),
      Except.map, List.map_cons, jfields]

/-- C7: `format_sources` on a dict reads only the `results` key: whenever
that key is absent — whatever other keys, `top_web_results` included, are
present — or holds the empty list, it returns `"No results found"`;
otherwise it emits one `"* <title> : <url>"` line per result without any
deduplication, title and url defaulting to `"No Title"` / `"No URL"`,
joined by single newlines with no trailing blank line; on
`{"results": [{"title": "A", "url": "http://a"}]}` it returns exactly
`"* A : http://a"`. -/
theorem formatShort_results_only :
    (∀ fs : List (String × JVal), fs.lookup "results" = none →
      format_sources (.val (.jobj fs)) = .ok "No results found")
    ∧ (∀ fs : List (String × JVal), fs.lookup "results" = some (.jarr []) →
      format_sources (.val (.jobj fs)) = .ok "No results found")
    ∧ (∀ (fs : List (String × JVal)) (xs : List JVal),
        fs.lookup "results" = some (.jarr xs) → xs ≠ [] →
        (∀ s ∈ xs, s.isObj = true) →
        format_sources (.val (.jobj fs)) = .ok (String.intercalate "\n" (xs.map (fun s =>
          "* " ++ pyStr (((jfields s).lookup "title").getD (.jstr "No Title"))
          ++ " : " ++ pyStr (((jfields s).lookup "url").getD (.jstr "No URL"))))))
    ∧ format_sources (.val (.jobj [("results", .jarr [.jobj [("title", .jstr "A"),
        ("url", .jstr "http://a")]])])) = .ok "* A : http://a" := by
  refine ⟨?_, ?_, ?_, rfl⟩
  · intro fs hres
    simp [format_sources, parseArg, format_sources_body, pyBind_ok, pyPure_eq, hres, jtruthy]
  · intro fs hres
    simp [format_sources, parseArg, format_sources_body, pyBind_ok, pyPure_eq, hres, jtruthy]
  · intro fs xs hres hne hall
    have hxs : jtruthy (JVal.jarr xs) = true := by
      simp [jtruthy, List.isEmpty_iff, hne]
    simp [format_sources, parseArg, format_sources_body, pyBind_ok, pyPure_eq, hres, hxs,
      pyIter, bulletsLoop_obj xs hall, Except.map]

/-- Witness for C7: both the empty-results dict and a dict carrying only
`top_web_results`. -/
theorem formatShort_results_only_witness :
    format_sources (.val (.jobj [("results", .jarr [])])) = .ok "No results found"
    ∧ format_sources (.val (.jobj [("top_web_results", .jarr [.jobj [("title", .jstr "A"),
        ("url", .jstr "http://a")]])])) = .ok "No results found"
    ∧ format_sources (.val (.jobj [("results", .jarr [.jobj [("title", .jstr "A"),
        ("url", .jstr "http://a")], .jobj [("title", .jstr "B")]])])) =
        .ok "* A : http://a\n* B : No URL" :=
  ⟨formatShort_results_only.2.1 [("results", .jarr [])] rfl,
   formatShort_results_only.1 [("top_web_results", .jarr [.jobj [("title", .jstr "A"),
      ("url", .jstr "http://a")]])] rfl,
   formatShort_results_only.2.2.1 [("results", .jarr [.jobj [("title", .jstr "A"),
      ("url", .jstr "http://a")], .jobj [("title", .jstr "B")]])]
      [.jobj [("title", .jstr "A"), ("url", .jstr "http://a")], .jobj [("title", .jstr "B")]]
      rfl (by simp) (by decide)⟩

/-! ### C2: what the bullet formatter catches and what it raises -/

theorem pyIter_cases (v : JVal) :
    (∃ xs, pyIter v = .ok xs) ∨ (∃ msg, pyIter v = .error (.typeError msg)) := by
  cases v with
  | jnull => right; exact ⟨_, rfl⟩
  | jbool b => right; exact ⟨_, rfl⟩
  | jnum n => right; exact ⟨_, rfl⟩
  | jstr s => left; exact ⟨_, rfl⟩
  | jarr xs => left; exact ⟨_, rfl⟩
  | jobj fs => left; exact ⟨_, rfl⟩

theorem bulletOf_cases (s : JVal) :
    (∃ t, bulletOf s = .ok t) ∨ (∃ msg, bulletOf s = .error (.attributeError msg)) := by
  cases s with
  | jobj fs => left; exact ⟨_, bulletOf_obj fs⟩
  | jnull => right; exact ⟨_, rfl⟩
  | jbool b => right; exact ⟨_, rfl⟩
  | jnum n => right; exact ⟨_, rfl⟩
  | jstr t => right; exact ⟨_, rfl⟩
  | jarr xs => right; exact ⟨_, rfl⟩

theorem bulletsLoop_cases : ∀ xs : List JVal,
    (∃ ls, pyMapLoop bulletOf xs = .ok ls) ∨
    (∃ msg, pyMapLoop bulletOf xs = .error (.attributeError msg)) := by
  intro xs
  induction xs with
  | nil => left; exact ⟨[], rfl⟩
  | cons s rest ih =>
    rcases bulletOf_cases s with ⟨t, ht⟩ | ⟨msg, hm⟩
    · rcases ih with ⟨ls, hls⟩ | ⟨msg, hm⟩
      · left; exact ⟨t :: ls, by simp [pyMapLoop, ht, hls, Except.map]⟩
      · right; exact ⟨msg, by simp [pyMapLoop, ht, hm, Except.map]⟩
    · right; exact ⟨msg, by simp [pyMapLoop, hm]⟩

theorem format_sources_body_cases : ∀ v : JVal,
    (∃ t, format_sources_body v = .ok t) ∨
    (∃ msg, format_sources_body v = .error (.valueError msg)) ∨
    (∃ msg, format_sources_body v = .error (.typeError msg)) ∨
    (∃ msg, format_sources_body v = .error (.attributeError msg)) := by
  intro v
  cases v with
  | jobj fs =>
    by_cases htr : jtruthy ((fs.lookup "results").getD (.jarr [])) = true
    · rcases pyIter_cases ((fs.lookup "results").getD (.jarr [])) with ⟨xs, hxs⟩ | ⟨msg, hm⟩
      · rcases bulletsLoop_cases xs with ⟨ls, hls⟩ | ⟨msg, hm⟩
        · left
          refine ⟨String.intercalate "\n" ls, ?_⟩
          simp [format_sources_body, htr, hxs, hls, pyBind_ok, pyPure_eq]
        · right; right; right
          exact ⟨msg, by simp [format_sources_body, htr, hxs, hm, pyBind_ok, pyBind_error]⟩
      · right; right; left
        exact ⟨msg, by simp [format_sources_body, htr, hm, pyBind_error]⟩
    · left
      exact ⟨"No results found", by simp [format_sources_body, htr, pyPure_eq]⟩
  | jnull => right; left; exact ⟨_, rfl⟩
  | jbool b => right; left; exact ⟨_, rfl⟩
  | jnum n => right; left; exact ⟨_, rfl⟩
  | jstr s => right; left; exact ⟨_, rfl⟩
  | jarr xs => right; left; exact ⟨_, rfl⟩

/-- C2 counterexample: on the invalid JSON string `"not json"`,
`format_sources` does not return an error string: the
`except json.JSONDecodeError` handler re-raises
`ValueError("Invalid JSON string input")`, which escapes the function
(the `except Exception` clause guards the `try` block, not the handler),
refuting "never propagates an exception". -/
theorem formatShort_bad_json_raises :
    format_sources (.str "not json") = .error (.valueError "Invalid JSON string input") := rfl

/-- C2 (amended): `format_sources` converts every formatting failure into
a returned `"Error formatting sources: ..."` string — an already-parsed
argument can never make it raise — with one exception: a string argument
that fails JSON decoding raises `ValueError("Invalid JSON string input")`
instead of returning a string. -/
theorem formatShort_catches_all_but_bad_json :
    (∀ v : JVal, ∃ t : String, format_sources (.val v) = .ok t)
    ∧ (∀ s : String,
        (∃ t : String, format_sources (.str s) = .ok t) ∨
        (format_sources (.str s) = .error (.valueError "Invalid JSON string input") ∧
          ∃ m, json_loads s = .error (.jsonDecodeError m))) := by
  have hval : ∀ v : JVal, ∃ t : String,
      (match format_sources_body v with
        | .ok s => .ok s
        | .error (.jsonDecodeError _) => .error (.valueError "Invalid JSON string input")
        | .error e => .ok ("Error formatting sources: " ++ pyErrStr e) : Except PyErr String)
        = .ok t := by
    intro v
    rcases format_sources_body_cases v with ⟨t, ht⟩ | ⟨msg, hm⟩ | ⟨msg, hm⟩ | ⟨msg, hm⟩
    · exact ⟨t, by rw [ht]⟩
    · exact ⟨_, by rw [hm]⟩
    · exact ⟨_, by rw [hm]⟩
    · exact ⟨_, by rw [hm]⟩
  constructor
  · intro v
    obtain ⟨t, ht⟩ := hval v
    exact ⟨t, by simpa [format_sources, parseArg, pyBind_ok] using ht⟩
  · intro s
    cases hl : json_loads s with
    | ok v =>
      left
      obtain ⟨t, ht⟩ := hval v
      exact ⟨t, by simpa [format_sources, parseArg, hl, pyBind_ok] using ht⟩
    | error e =>
      cases e with
      | jsonDecodeError m =>
        right
        exact ⟨by simp [format_sources, parseArg, hl, pyBind_error], m, rfl⟩
      | valueError m =>
        left
        exact ⟨"Error formatting sources: " ++ pyErrStr (.valueError m),
          by simp [format_sources, parseArg, hl, pyBind_error]⟩
      | typeError m =>
        left
        exact ⟨"Error formatting sources: " ++ pyErrStr (.typeError m),
          by simp [format_sources, parseArg, hl, pyBind_error]⟩
      | keyError k =>
        left
        exact ⟨"Error formatting sources: " ++ pyErrStr (.keyError k),
          by simp [format_sources, parseArg, hl, pyBind_error]⟩
      | attributeError m =>
        left
        exact ⟨"Error formatting sources: " ++ pyErrStr (.attributeError m),
          by simp [format_sources, parseArg, hl, pyBind_error]⟩

/-! ### Well-formed values: the image of Python objects -/

/-- No key occurs twice: the invariant of a Python `dict`'s item list. -/
def nodupKeys : List (String × JVal) → Bool
  | [] => true
  | (k, _) :: fs => !(fs.any (fun p => p.1 == k)) && nodupKeys fs

mutual

/-- Well-formedness of a value as the image of a Python object: every
object's keys are pairwise distinct (a Python `dict` cannot hold a key
twice, and `json.loads` collapses repeats), recursively. -/
def JVal.wf : JVal → Bool
  | .jnull => true
  | .jbool _ => true
  | .jnum _ => true
  | .jstr _ => true
  | .jarr xs => JVal.wfList xs
  | .jobj fs => nodupKeys fs && JVal.wfFields fs

def JVal.wfList : List JVal → Bool
  | [] => true
  | x :: xs => JVal.wf x && JVal.wfList xs

def JVal.wfFields : List (String × JVal) → Bool
  | [] => true
  | (_, v) :: fs => JVal.wf v && JVal.wfFields fs

end

theorem lookup_mem {fs : List (String × JVal)} {k : String} {v : JVal}
    (h : fs.lookup k = some v) : (k, v) ∈ fs := by
  induction fs with
  | nil => simp [List.lookup] at h
  | cons f rest ih =>
    obtain ⟨k2, v2⟩ := f
    by_cases hk : k = k2
    · subst hk
      rw [List.lookup, beq_self_eq_true] at h
      simp only at h
      cases h
      simp
    · rw [List.lookup, show (k == k2) = false by simpa using hk] at h
      simp only at h
      simp [ih h]

theorem wfList_mem : ∀ {xs : List JVal}, JVal.wfList xs = true →
    ∀ {x : JVal}, x ∈ xs → x.wf = true := by
  intro xs
  induction xs with
  | nil => intro _ x hx; simp at hx
  | cons y ys ih =>
    intro h x hx
    rw [JVal.wfList, Bool.and_eq_true] at h
    rcases List.mem_cons.mp hx with hx | hx
    · exact hx ▸ h.1
    · exact ih h.2 hx

theorem wfFields_mem : ∀ {fs : List (String × JVal)}, JVal.wfFields fs = true →
    ∀ {p : String × JVal}, p ∈ fs → p.2.wf = true := by
  intro fs
  induction fs with
  | nil => intro _ p hp; simp at hp
  | cons f rest ih =>
    intro h p hp
    obtain ⟨k, v⟩ := f
    rw [JVal.wfFields, Bool.and_eq_true] at h
    rcases List.mem_cons.mp hp with hp | hp
    · rw [hp]
      exact h.1
    · exact ih h.2 hp

theorem wfList_of_forall : ∀ {xs : List JVal}, (∀ x ∈ xs, x.wf = true) →
    JVal.wfList xs = true := by
  intro xs
  induction xs with
  | nil => intro _; rfl
  | cons y ys ih =>
    intro h
    rw [JVal.wfList, Bool.and_eq_true]
    exact ⟨h y (by simp), ih (fun z hz => h z (by simp [hz]))⟩

theorem wf_lookup {fs : List (String × JVal)} {k : String} {v : JVal}
    (h : JVal.wf (.jobj fs) = true) (hl : fs.lookup k = some v) : v.wf = true := by
  rw [JVal.wf, Bool.and_eq_true] at h
  exact wfFields_mem h.2 (lookup_mem hl)

theorem wf_lookup_getD {fs : List (String × JVal)} {k : String} {d : JVal}
    (h : JVal.wf (.jobj fs) = true) (hd : d.wf = true) :
    ((fs.lookup k).getD d).wf = true := by
  cases hl : fs.lookup k with
  | none => simpa using hd
  | some v => simpa using wf_lookup h hl

theorem pyIndex_wf {v : JVal} {k : String} {w : JVal}
    (h : pyIndex v k = .ok w) (hw : v.wf = true) : w.wf = true := by
  obtain ⟨fs, hfs, hl⟩ := pyIndex_ok_inv h
  subst hfs
  exact wf_lookup hw hl

theorem pyIter_wf {v : JVal} {items : List JVal}
    (h : pyIter v = .ok items) (hw : v.wf = true) : ∀ s ∈ items, s.wf = true := by
  cases v with
  | jarr xs =>
    simp only [pyIter, Except.ok.injEq] at h
    subst h
    exact fun s hs => wfList_mem hw hs
  | jstr s0 =>
    simp only [pyIter, Except.ok.injEq] at h
    subst h
    intro s hs
    obtain ⟨c, _, hc⟩ := List.mem_map.mp hs
    rw [← hc]
    rfl
  | jobj fs =>
    simp only [pyIter, Except.ok.injEq] at h
    subst h
    intro s hs
    obtain ⟨p, _, hp⟩ := List.mem_map.mp hs
    rw [← hp]
    rfl
  | jnull => simp [pyIter] at h
  | jbool b => simp [pyIter] at h
  | jnum n => simp [pyIter] at h

theorem pySliceTo_wf {n : Nat} {v w : JVal}
    (h : pySliceTo n v = .ok w) (hw : v.wf = true) : w.wf = true := by
  cases v with
  | jarr xs =>
    simp only [pySliceTo, Except.ok.injEq] at h
    subst h
    exact wfList_of_forall (fun x hx => wfList_mem hw (List.mem_of_mem_take hx))
  | jstr s0 =>
    simp only [pySliceTo, Except.ok.injEq] at h
    subst h
    rfl
  | jnull => simp [pySliceTo] at h
  | jbool b => simp [pySliceTo] at h
  | jnum m => simp [pySliceTo] at h
  | jobj fs => simp [pySliceTo] at h

theorem pyMapLoop_mem_rev {α : Type} (f : JVal → Except PyErr α) :
    ∀ (xs : List JVal) (ys : List α), pyMapLoop f xs = .ok ys →
      ∀ y ∈ ys, ∃ x ∈ xs, f x = .ok y := by
  intro xs
  induction xs with
  | nil =>
    intro ys h y hy
    simp only [pyMapLoop, Except.ok.injEq] at h
    subst h
    simp at hy
  | cons x xs ih =>
    intro ys h y hy
    simp only [pyMapLoop] at h
    cases hx : f x with
    | error e => rw [hx] at h; exact absurd h (by simp)
    | ok z =>
      rw [hx] at h
      cases htl : pyMapLoop f xs with
      | error e => rw [htl] at h; exact absurd h (by simp [Except.map])
      | ok ys2 =>
        rw [htl] at h
        simp only [Except.map, Except.ok.injEq] at h
        subst h
        rcases List.mem_cons.mp hy with hy | hy
        · exact ⟨x, by simp, hy ▸ hx⟩
        · obtain ⟨x2, hx2, hfx2⟩ := ih ys2 htl y hy
          exact ⟨x2, by simp [hx2], hfx2⟩

theorem processWebResult_wf {s r : JVal}
    (h : processWebResult s = .ok r) (hw : s.wf = true) : r.wf = true := by
  obtain ⟨fs, snip, nm, u, hfs, hsn, hnm, hu, hr⟩ := processWebResult_ok_inv h
  subst hfs
  subst hr
  simp [JVal.wf, JVal.wfFields, nodupKeys, wf_lookup hw hsn, wf_lookup hw hnm,
    wf_lookup hw hu]

theorem processImage_wf {s r : JVal}
    (h : processImage s = .ok r) (hw : s.wf = true) : r.wf = true := by
  obtain ⟨fs, cu, hfs, hcu, hr⟩ := processImage_ok_inv h
  subst hfs
  subst hr
  have he : JVal.wf (.jstr "") = true := rfl
  simp [JVal.wf, JVal.wfFields, nodupKeys, wf_lookup hw hcu,
    wf_lookup_getD hw he]

theorem webResults_wf {data : JVal} {results : List JVal}
    (h : webResults data = .ok results) (hw : data.wf = true) :
    JVal.wfList results = true := by
  cases h1 : pyIndex data "webPages" with
  | error e => simp [webResults, h1, pyBind_error] at h
  | ok wp =>
    cases h2 : pyIndex wp "value" with
    | error e => simp [webResults, h1, h2, pyBind_ok, pyBind_error] at h
    | ok v =>
      cases h3 : pyIter v with
      | error e => simp [webResults, h1, h2, h3, pyBind_ok, pyBind_error] at h
      | ok items =>
        have hmap : pyMapLoop processWebResult items = .ok results := by
          simpa [webResults, h1, h2, h3, pyBind_ok] using h
        have hvwf : v.wf = true := pyIndex_wf h2 (pyIndex_wf h1 hw)
        refine wfList_of_forall (fun r hr => ?_)
        obtain ⟨s, hs, hfs⟩ := pyMapLoop_mem_rev processWebResult items results hmap r hr
        exact processWebResult_wf hfs (pyIter_wf h3 hvwf s hs)

theorem imageResults_wf {data : JVal} {images : List JVal}
    (h : imageResults data = .ok images) (hw : data.wf = true) :
    JVal.wfList images = true := by
  cases h1 : pyIndex data "images" with
  | error e => simp [imageResults, h1, pyBind_error] at h
  | ok iv =>
    cases h2 : pyIndex iv "value" with
    | error e => simp [imageResults, h1, h2, pyBind_ok, pyBind_error] at h
    | ok v =>
      cases h3 : pySliceTo 10 v with
      | error e => simp [imageResults, h1, h2, h3, pyBind_ok, pyBind_error] at h
      | ok sliced =>
        cases h4 : pyIter sliced with
        | error e => simp [imageResults, h1, h2, h3, h4, pyBind_ok, pyBind_error] at h
        | ok items =>
          have hmap : pyMapLoop processImage items = .ok images := by
            simpa [imageResults, h1, h2, h3, h4, pyBind_ok] using h
          have hswf : sliced.wf = true :=
            pySliceTo_wf h3 (pyIndex_wf h2 (pyIndex_wf h1 hw))
          refine wfList_of_forall (fun r hr => ?_)
          obtain ⟨s, hs, hfs⟩ := pyMapLoop_mem_rev processImage items images hmap r hr
          exact processImage_wf hfs (pyIter_wf h4 hswf s hs)

theorem queryExtract_wf {data q : JVal}
    (h : queryExtract data = .ok q) (hw : data.wf = true) : q.wf = true := by
  cases h1 : pyIndex data "queryContext" with
  | error e => simp [queryExtract, h1, pyBind_error] at h
  | ok qc =>
    have h2 : pyIndex qc "originalQuery" = .ok q := by
      simpa [queryExtract, h1, pyBind_ok] using h
    exact pyIndex_wf h2 (pyIndex_wf h1 hw)

theorem process_wf {data resp : JVal} (hw : data.wf = true)
    (hp : process_bing_search_results data = .ok resp) : resp.wf = true := by
  obtain ⟨query, wc, results, ic, images, h1, h2, h3, h4, h5, hresp⟩ := process_ok_inv hp
  have hq : query.wf = true := queryExtract_wf h1 hw
  have hres : JVal.wfList results = true := by
    cases wc with
    | true => exact webResults_wf (by simpa [guarded] using h3) hw
    | false =>
      have : results = [] := by simpa [guarded, pyPure_eq] using h3.symm
      rw [this]
      rfl
  have hims : JVal.wfList images = true := by
    cases ic with
    | true => exact imageResults_wf (by simpa [guarded] using h5) hw
    | false =>
      have : images = [] := by simpa [guarded, pyPure_eq] using h5.symm
      rw [this]
      rfl
  subst hresp
  simp [JVal.wf, JVal.wfFields, nodupKeys, hims, hq, hres]

/-! ### Round trip of the JSON string escaping -/

theorem charOfNat_toNat {n : Nat} (h : n < 55296) : (Char.ofNat n).toNat = n := by
  have hv : n.isValidChar := Or.inl h
  simp [Char.ofNat, Char.toNat, Char.ofNatAux, hv, UInt32.toNat]

theorem toString_mk (c : Char) (cs : List Char) :
    c.toString ++ String.mk cs = String.mk (c :: cs) := rfl

theorem parseHex_hexDigit {n : Nat} (h : n < 16) : parseHex (hexDigit n) = some n := by
  interval_cases n <;> rfl

theorem hexDigit_toNat {n : Nat} (h : n < 16) : (hexDigit n).toNat = 48 + n ∨
    (hexDigit n).toNat = 87 + n := by
  by_cases h10 : n < 10
  · left
    simp only [hexDigit, if_pos h10]
    exact charOfNat_toNat (by omega)
  · right
    simp only [hexDigit, if_neg h10]
    exact charOfNat_toNat (by omega)

theorem parseStringBody_escape : ∀ (cs rest : List Char),
    parseStringBody ((cs.flatMap jsonEscapeChar) ++ '"' :: rest) = .ok (String.mk cs, rest) := by
  intro cs
  induction cs with
  | nil =>
    intro rest
    simp only [List.flatMap_nil, List.nil_append]
    rw [parseStringBody.eq_def]
    simp
  | cons c cs ih =>
    intro rest
    rw [List.flatMap_cons, List.append_assoc]
    by_cases h1 : c = '"'
    · subst h1
      simp only [show jsonEscapeChar '"' = ['\\', '"'] from rfl]
      simp [parseStringBody, escChar, ih rest, Except.map, toString_mk]
    · by_cases h2 : c = '\\'
      · subst h2
        simp only [show jsonEscapeChar '\\' = ['\\', '\\'] from rfl]
        simp [parseStringBody, escChar, ih rest, Except.map, toString_mk]
      · by_cases h3 : c = '\n'
        · subst h3
          simp only [show jsonEscapeChar '\n' = ['\\', 'n'] from rfl]
          simp [parseStringBody, escChar, ih rest, Except.map, toString_mk]
        · by_cases h4 : c = '\t'
          · subst h4
            simp only [show jsonEscapeChar '\t' = ['\\', 't'] from rfl]
            simp [parseStringBody, escChar, ih rest, Except.map, toString_mk]
          · by_cases h5 : c = '\r'
            · subst h5
              simp only [show jsonEscapeChar '\r' = ['\\', 'r'] from rfl]
              simp [parseStringBody, escChar, ih rest, Except.map, toString_mk]
            · by_cases h6 : c = Char.ofNat 8
              · subst h6
                simp only [show jsonEscapeChar (Char.ofNat 8) = ['\\', 'b'] from rfl]
                simp [parseStringBody, escChar, ih rest, Except.map, toString_mk]
              · by_cases h7 : c = Char.ofNat 12
                · subst h7
                  simp only [show jsonEscapeChar (Char.ofNat 12) = ['\\', 'f'] from rfl]
                  simp [parseStringBody, escChar, ih rest, Except.map, toString_mk]
                · by_cases h8 : c.toNat < 32
                  · simp only [jsonEscapeChar, if_neg h1, if_neg h2, if_neg h3,
                      if_neg h4, if_neg h5, if_neg h6, if_neg h7, if_pos h8]
                    have hhi : c.toNat / 16 % 16 < 16 := Nat.mod_lt _ (by omega)
                    have hlo : c.toNat % 16 < 16 := Nat.mod_lt _ (by omega)
                    simp only [List.cons_append, List.nil_append]
                    simp only [parseStringBody, if_neg (show ¬('\\' : Char) = '"' by decide),
                      if_pos rfl, parseHex_hexDigit hhi, parseHex_hexDigit hlo,
                      show parseHex '0' = some 0 from rfl]
                    rw [show ((0 * 16 + 0) * 16 + c.toNat / 16 % 16) * 16 + c.toNat % 16
                        = c.toNat by omega]
                    rw [Char.ofNat_toNat]
                    simp [ih rest, Except.map, toString_mk]
                  · simp only [jsonEscapeChar, if_neg h1, if_neg h2, if_neg h3,
                      if_neg h4, if_neg h5, if_neg h6, if_neg h7, if_neg h8]
                    simp only [List.cons_append, List.nil_append]
                    rw [parseStringBody.eq_def]
                    simp only [if_neg h1, if_neg h2, if_neg h8]
                    simp [ih rest, Except.map, toString_mk]

/-! ### Round trip of the number rendering -/

/-- The remaining input does not start with a decimal digit. -/
def noDigitStart : List Char → Bool
  | [] => true
  | c :: _ => !(isDigitChar c)

/-- The remaining input cannot extend a number literal: no digit and no
fraction/exponent marker. -/
def numBoundary : List Char → Bool
  | [] => true
  | c :: _ => !(isDigitChar c) && !(c = '.') && !(c = 'e') && !(c = 'E')

theorem noDigitStart_of_numBoundary : ∀ {rest : List Char},
    numBoundary rest = true → noDigitStart rest = true := by
  intro rest h
  cases rest with
  | nil => rfl
  | cons c cs =>
    simp only [numBoundary, Bool.and_eq_true] at h
    simp [noDigitStart, h.1.1.1]

theorem parseDigits_eval : ∀ (ds rest : List Char) (acc : Nat),
    (∀ c ∈ ds, isDigitChar c = true) → noDigitStart rest = true →
    parseDigits (ds ++ rest) acc
      = (ds.foldl (fun a c => a * 10 + (c.toNat - 48)) acc, rest) := by
  intro ds
  induction ds with
  | nil =>
    intro rest acc _ hnd
    cases rest with
    | nil => rfl
    | cons c cs =>
      simp only [noDigitStart, Bool.not_eq_true'] at hnd
      simp [parseDigits, hnd]
  | cons d ds ih =>
    intro rest acc hall hnd
    simp only [List.cons_append, parseDigits, hall d (by simp), if_pos rfl,
      List.foldl_cons]
    exact ih rest _ (fun c hc => hall c (by simp [hc])) hnd

theorem digitChar_toNat {n : Nat} (h : n < 10) : (digitChar n).toNat = 48 + n :=
  charOfNat_toNat (by omega)

theorem isDigitChar_digitChar {n : Nat} (h : n < 10) : isDigitChar (digitChar n) = true := by
  simp [isDigitChar, digitChar_toNat h]
  omega

theorem natChars_spec : ∀ n : Nat,
    (∀ c ∈ natChars n, isDigitChar c = true) ∧
    (∀ acc, (natChars n).foldl (fun a c => a * 10 + (c.toNat - 48)) acc
      = acc * 10 ^ (natChars n).length + n) ∧
    (∃ d ds, natChars n = d :: ds ∧ (1 ≤ n → ¬ d = '0')) := by
  intro n
  induction n using Nat.strong_induction_on with
  | _ n ih =>
    by_cases h10 : n < 10
    · rw [show natChars n = [digitChar n] by rw [natChars]; simp [h10]]
      refine ⟨fun c hc => ?_, fun acc => ?_, digitChar n, [], rfl, fun h1 => ?_⟩
      · simp only [List.mem_singleton] at hc
        exact hc ▸ isDigitChar_digitChar h10
      · simp [List.foldl_cons, digitChar_toNat h10]
      · intro hd
        have := congrArg Char.toNat hd
        rw [digitChar_toNat h10] at this
        simp [show ('0' : Char).toNat = 48 from rfl] at this
        omega
    · have hdiv : n / 10 < n := Nat.div_lt_self (by omega) (by omega)
      obtain ⟨ihd, ihf, d, ds, hds, hd0⟩ := ih (n / 10) hdiv
      rw [show natChars n = natChars (n / 10) ++ [digitChar (n % 10)] by
            rw [natChars]; simp [h10]]
      have hmod : n % 10 < 10 := Nat.mod_lt _ (by omega)
      refine ⟨fun c hc => ?_, fun acc => ?_, ?_⟩
      · rcases List.mem_append.mp hc with hc | hc
        · exact ihd c hc
        · simp only [List.mem_singleton] at hc
          exact hc ▸ isDigitChar_digitChar hmod
      · rw [List.foldl_append, ihf acc, List.foldl_cons, List.foldl_nil,
          List.length_append, List.length_singleton, digitChar_toNat hmod,
          pow_succ]
        have hnm := Nat.div_add_mod n 10
        set k := 10 ^ (natChars (n / 10)).length
        have : 48 + n % 10 - 48 = n % 10 := by omega
        rw [this]
        calc (acc * k + n / 10) * 10 + n % 10
            = acc * (k * 10) + (n / 10 * 10 + n % 10) := by ring
          _ = acc * (k * 10) + n := by omega
      · exact ⟨d, ds ++ [digitChar (n % 10)], by rw [hds]; rfl,
          fun _ => hd0 (by omega)⟩

theorem parseNumCore_natChars : ∀ (m : Nat) (rest : List Char),
    noDigitStart rest = true → parseNumCore (natChars m ++ rest) = .ok (m, rest) := by
  intro m rest hnd
  by_cases hm : m = 0
  · subst hm
    rw [show natChars 0 = ['0'] by rw [natChars]; simp; rfl]
    rfl
  · obtain ⟨hdigits, hfold, d, ds, hds, hd0⟩ := natChars_spec m
    rw [hds, List.cons_append, parseNumCore, if_neg (hd0 (by omega)),
      if_pos (hdigits d (by simp [hds]))]
    rw [parseDigits_eval ds rest _ (fun c hc => hdigits c (by simp [hds, hc])) hnd]
    have h1 : (d :: ds).foldl (fun a c => a * 10 + (c.toNat - 48)) 0 = m := by
      rw [← hds, hfold 0]
      simp
    rw [List.foldl_cons] at h1
    simp only [Nat.zero_mul, Nat.zero_add] at h1
    rw [h1]

theorem parseNumber_intChars : ∀ (n : Int) (rest : List Char), numBoundary rest = true →
    parseNumber (intChars n ++ rest) = .ok (n, rest) := by
  intro n rest hb
  have hnd := noDigitStart_of_numBoundary hb
  have hcore := parseNumCore_natChars n.natAbs rest hnd
  have hrest : ∀ (neg : Bool) (m : Nat),
      (match rest with
        | c :: _ =>
          if c = '.' || c = 'e' || c = 'E' then
            (.error (.jsonDecodeError "float literals are outside the model")
              : Except PyErr (Int × List Char))
          else .ok (if neg then -(m : Int) else (m : Int), rest)
        | [] => .ok (if neg then -(m : Int) else (m : Int), rest))
      = .ok (if neg then -(m : Int) else (m : Int), rest) := by
    intro neg m
    cases rest with
    | nil => rfl
    | cons c cs =>
      simp only [numBoundary, Bool.and_eq_true, Bool.not_eq_true',
        decide_eq_false_iff_not] at hb
      obtain ⟨⟨⟨hd, hdot⟩, he⟩, hE⟩ := hb
      simp [hdot, he, hE]
  by_cases hneg : n < 0
  · rw [show intChars n = '-' :: natChars n.natAbs by simp [intChars, hneg]]
    rw [List.cons_append]
    simp only [parseNumber, List.head?_cons, Option.some.injEq, List.tail_cons,
      hcore, Except.map]
    rw [if_pos (trivial : True)]
    dsimp only
    rw [hrest true n.natAbs]
    rw [if_pos rfl, show -(↑n.natAbs : Int) = n by omega]
  · rw [show intChars n = natChars n.natAbs by simp [intChars, hneg]]
    obtain ⟨hdig, _, d, ds, hds, _⟩ := natChars_spec n.natAbs
    have hdne : ¬ d = '-' := by
      have hdd := hdig d (by simp [hds])
      intro hcon
      rw [hcon] at hdd
      simp [isDigitChar] at hdd
    rw [hds, List.cons_append]
    have hhead : (d :: (ds ++ rest)).head? = some d := rfl
    simp only [parseNumber, hhead, Option.some.injEq]
    rw [if_neg (by simpa using hdne)]
    rw [← List.cons_append, ← hds, hcore]
    simp only [Except.map, hrest false n.natAbs]
    rw [if_neg (by simp : ¬ false = true), show ((n.natAbs : Int)) = n by omega]

/-! ### Fuel, whitespace and head-shape lemmas for the parser round trip -/

mutual

/-- Fuel sufficient for `parseVal` to parse the printed form of a value. -/
def jfuel : JVal → Nat
  | .jnull => 1
  | .jbool _ => 1
  | .jnum _ => 1
  | .jstr _ => 1
  | .jarr xs => 1 + jfuelList xs
  | .jobj fs => 1 + jfuelFields fs

def jfuelList : List JVal → Nat
  | [] => 1
  | x :: xs => 1 + jfuel x + jfuelList xs

def jfuelFields : List (String × JVal) → Nat
  | [] => 1
  | (_, v) :: fs => 1 + jfuel v + jfuelFields fs

end

theorem jfuel_pos : ∀ v : JVal, 1 ≤ jfuel v := by
  intro v
  cases v <;> simp [jfuel]

theorem jfuelList_pos : ∀ xs : List JVal, 1 ≤ jfuelList xs := by
  intro xs
  cases xs with
  | nil => simp [jfuelList]
  | cons x xs => simp only [jfuelList]; omega

theorem jfuelFields_pos : ∀ fs : List (String × JVal), 1 ≤ jfuelFields fs := by
  intro fs
  cases fs with
  | nil => simp [jfuelFields]
  | cons f fs => obtain ⟨k, v⟩ := f; simp only [jfuelFields]; omega

/-- JSON whitespace characters. -/
def wsChar (c : Char) : Bool := c = ' ' || c = '\t' || c = '\n' || c = '\r'

/-- A run of JSON whitespace. -/
def wsOnly : List Char → Bool
  | [] => true
  | c :: cs => wsChar c && wsOnly cs

theorem skipWs_cons_of_ws {c : Char} {cs : List Char} (h : wsChar c = true) :
    skipWs (c :: cs) = skipWs cs := by
  simp only [wsChar, Bool.or_eq_true, decide_eq_true_eq] at h
  rcases h with ((h | h) | h) | h <;> (subst h; rw [skipWs]; simp)

theorem skipWs_cons_of_nonws {c : Char} {cs : List Char} (h : wsChar c = false) :
    skipWs (c :: cs) = c :: cs := by
  simp only [wsChar, Bool.or_eq_false_iff, decide_eq_false_iff_not] at h
  rw [skipWs, if_neg]
  simp only [Bool.or_eq_true, decide_eq_true_eq]
  rintro (((h1 | h1) | h1) | h1) <;> simp_all

theorem skipWs_ws_append : ∀ {w : List Char}, wsOnly w = true →
    ∀ cs, skipWs (w ++ cs) = skipWs cs := by
  intro w
  induction w with
  | nil => intro _ cs; rfl
  | cons c w ih =>
    intro h cs
    rw [wsOnly, Bool.and_eq_true] at h
    rw [List.cons_append, skipWs_cons_of_ws h.1, ih h.2]

theorem wsOnly_padChars (n : Nat) : wsOnly (padChars n) = true := by
  induction n with
  | zero => rfl
  | succ m ih => simpa [padChars, List.replicate_succ, wsOnly, wsChar] using ih

theorem digit_nonws {d : Char} (h : isDigitChar d = true) :
    wsChar d = false ∧ ¬ d = ']' ∧ ¬ d = '\x7d' := by
  refine ⟨?_, ?_, ?_⟩
  · rw [Bool.eq_false_iff]
    intro hc
    simp only [wsChar, Bool.or_eq_true, decide_eq_true_eq] at hc
    rcases hc with ((h1 | h1) | h1) | h1 <;> (subst h1; simp [isDigitChar] at h)
  · intro h1; subst h1; simp [isDigitChar] at h
  · intro h1; subst h1; simp [isDigitChar] at h

/-- The first character a printed value puts on the tape: never
whitespace, never a closing bracket. -/
theorem dumpsVal_head : ∀ (v : JVal) (ind : Nat), ∃ c cs, dumpsVal ind v = c :: cs ∧
    wsChar c = false ∧ ¬ c = ']' ∧ ¬ c = '\x7d' := by
  intro v ind
  cases v with
  | jnull => exact ⟨'n', ['u', 'l', 'l'], by simp [dumpsVal], by decide, by decide, by decide⟩
  | jbool b => cases b with
    | true => exact ⟨'t', ['r', 'u', 'e'], by simp [dumpsVal], by decide, by decide, by decide⟩
    | false =>
      exact ⟨'f', ['a', 'l', 's', 'e'], by simp [dumpsVal], by decide, by decide, by decide⟩
  | jnum n =>
    by_cases hn : n < 0
    · refine ⟨'-', natChars n.natAbs, ?_, by decide, by decide, by decide⟩
      simp [dumpsVal, intChars, hn]
    · obtain ⟨hdig, _, d, ds, hds, _⟩ := natChars_spec n.natAbs
      obtain ⟨hws, h1, h2⟩ := digit_nonws (hdig d (by simp [hds]))
      refine ⟨d, ds, ?_, hws, h1, h2⟩
      simp [dumpsVal, intChars, hn, hds]
  | jstr s =>
    exact ⟨'"', s.data.flatMap jsonEscapeChar ++ ['"'],
      by simp [dumpsVal, jsonStrChars], by decide, by decide, by decide⟩
  | jarr xs => cases xs with
    | nil => exact ⟨'[', [']'], by simp [dumpsVal], by decide, by decide, by decide⟩
    | cons x xs =>
      exact ⟨'[', '\n' :: dumpsItems (ind + 2) x xs ++ '\n' :: padChars ind ++ [']'],
        by simp [dumpsVal], by decide, by decide, by decide⟩
  | jobj fs => cases fs with
    | nil => exact ⟨'\x7b', ['\x7d'], by simp [dumpsVal], by decide, by decide, by decide⟩
    | cons f fs =>
      exact ⟨'\x7b', '\n' :: dumpsFields (ind + 2) f fs ++ '\n' :: padChars ind ++ ['\x7d'],
        by simp [dumpsVal], by decide, by decide, by decide⟩

theorem numBoundary_ws_append {w : List Char} (hw : wsOnly w = true)
    {c : Char} (hc : isDigitChar c = false ∧ ¬ c = '.' ∧ ¬ c = 'e' ∧ ¬ c = 'E')
    (cs : List Char) : numBoundary (w ++ c :: cs) = true := by
  cases w with
  | nil => simp [numBoundary, hc.1, hc.2.1, hc.2.2.1, hc.2.2.2]
  | cons c2 w2 =>
    rw [wsOnly, Bool.and_eq_true] at hw
    have h2 : isDigitChar c2 = false ∧ ¬ c2 = '.' ∧ ¬ c2 = 'e' ∧ ¬ c2 = 'E' := by
      have hw1 := hw.1
      simp only [wsChar, Bool.or_eq_true, decide_eq_true_eq] at hw1
      rcases hw1 with ((h | h) | h) | h <;>
        (subst h; exact ⟨by decide, by decide, by decide, by decide⟩)
    simp [numBoundary, h2.1, h2.2.1, h2.2.2.1, h2.2.2.2]

theorem parseVal_ws {w : List Char} (hw : wsOnly w = true) (fuel : Nat) (cs : List Char) :
    parseVal fuel (w ++ cs) = parseVal fuel cs := by
  cases fuel with
  | zero => rfl
  | succ fuel => rw [parseVal, parseVal, skipWs_ws_append hw]

theorem parseItems_ws {w : List Char} (hw : wsOnly w = true) (fuel : Nat) (cs : List Char) :
    parseItems fuel (w ++ cs) = parseItems fuel cs := by
  cases fuel with
  | zero => rfl
  | succ fuel => rw [parseItems, parseItems, parseVal_ws hw]

theorem parseMembers_ws {w : List Char} (hw : wsOnly w = true) (fuel : Nat) (cs : List Char) :
    parseMembers fuel (w ++ cs) = parseMembers fuel cs := by
  cases fuel with
  | zero => rfl
  | succ fuel => rw [parseMembers, parseMembers, skipWs_ws_append hw]

theorem lookup_eq_none_of_nokey {fs : List (String × JVal)} {k : String}
    (h : fs.any (fun p => p.1 == k) = false) : fs.lookup k = none := by
  induction fs with
  | nil => rfl
  | cons f rest ih =>
    obtain ⟨k2, v2⟩ := f
    simp only [List.any_cons, Bool.or_eq_false_iff] at h
    have h1 : ¬ k = k2 := by
      have h2 := h.1
      simp only [beq_eq_false_iff_ne, ne_eq] at h2
      exact fun hc => h2 hc.symm
    rw [List.lookup, show (k == k2) = false by simpa using h1]
    simp only
    exact ih h.2

theorem dictOfPairs_nodup : ∀ {fs : List (String × JVal)}, nodupKeys fs = true →
    dictOfPairs fs = fs := by
  intro fs
  induction fs with
  | nil => intro _; rfl
  | cons f rest ih =>
    intro h
    obtain ⟨k, v⟩ := f
    rw [nodupKeys, Bool.and_eq_true] at h
    have hany : rest.any (fun p => p.1 == k) = false := by
      have h2 := h.1
      rwa [Bool.not_eq_true'] at h2
    rw [dictOfPairs]
    rw [ih h.2, lookup_eq_none_of_nokey hany]
    simp only [Option.getD_none]
    congr 1
    apply List.filter_eq_self.mpr
    intro p hp
    have hpk : (p.1 == k) = false := by
      by_contra hc
      rw [Bool.not_eq_false] at hc
      have hcon : rest.any (fun p => p.1 == k) = true := List.any_eq_true.mpr ⟨p, hp, hc⟩
      rw [hcon] at hany
      cases hany
    simp [hpk]

theorem parseVal_num_dispatch (fuel : Nat) (d : Char) (cs1 : List Char)
    (hd : d = '-' ∨ isDigitChar d = true) (hws : wsChar d = false)
    (hne : ¬ d = 'n' ∧ ¬ d = 't' ∧ ¬ d = 'f' ∧ ¬ d = '"' ∧ ¬ d = '[' ∧ ¬ d = '\x7b') :
    parseVal (fuel + 1) (d :: cs1)
      = (parseNumber (d :: cs1)).map (fun p => (.jnum p.1, p.2)) := by
  rw [parseVal, skipWs_cons_of_nonws hws]
  split
  · rename_i heq
    cases heq
  · rename_i cs2 heq
    injection heq with h1 _
    exact absurd h1 hne.1
  · rename_i cs2 heq
    injection heq with h1 _
    exact absurd h1 hne.2.1
  · rename_i cs2 heq
    injection heq with h1 _
    exact absurd h1 hne.2.2.1
  · rename_i cs2 heq
    injection heq with h1 _
    exact absurd h1 hne.2.2.2.1
  · rename_i cs2 heq
    injection heq with h1 _
    exact absurd h1 hne.2.2.2.2.1
  · rename_i cs2 heq
    injection heq with h1 _
    exact absurd h1 hne.2.2.2.2.2
  · rename_i heq
    injection heq with h1 h2
    subst h1
    subst h2
    rw [if_pos]
    rcases hd with hd | hd
    · simp [hd]
    · simp [hd]

theorem parseVal_null_eq (fuel : Nat) (cs1 : List Char) :
    parseVal (fuel + 1) ('n' :: cs1) =
      if ['u', 'l', 'l'].isPrefixOf cs1 then .ok (.jnull, cs1.drop 3)
      else .error (.jsonDecodeError "Expecting value") := by
  rw [parseVal, skipWs_cons_of_nonws (by decide)]
  rfl

theorem parseVal_true_eq (fuel : Nat) (cs1 : List Char) :
    parseVal (fuel + 1) ('t' :: cs1) =
      if ['r', 'u', 'e'].isPrefixOf cs1 then .ok (.jbool true, cs1.drop 3)
      else .error (.jsonDecodeError "Expecting value") := by
  rw [parseVal, skipWs_cons_of_nonws (by decide)]
  rfl

theorem parseVal_false_eq (fuel : Nat) (cs1 : List Char) :
    parseVal (fuel + 1) ('f' :: cs1) =
      if ['a', 'l', 's', 'e'].isPrefixOf cs1 then .ok (.jbool false, cs1.drop 4)
      else .error (.jsonDecodeError "Expecting value") := by
  rw [parseVal, skipWs_cons_of_nonws (by decide)]
  rfl

theorem parseVal_str_eq (fuel : Nat) (cs1 : List Char) :
    parseVal (fuel + 1) ('"' :: cs1) =
      (parseStringBody cs1).map (fun p => (.jstr p.1, p.2)) := by
  rw [parseVal, skipWs_cons_of_nonws (by decide)]
  rfl

theorem parseVal_arr_eq (fuel : Nat) (cs1 : List Char) :
    parseVal (fuel + 1) ('[' :: cs1) =
      (match skipWs cs1 with
        | ']' :: cs2 => .ok (.jarr [], cs2)
        | _ => (parseItems fuel cs1).map (fun p => (.jarr p.1, p.2))) := by
  rw [parseVal, skipWs_cons_of_nonws (by decide)]
  rfl

theorem parseVal_obj_eq (fuel : Nat) (cs1 : List Char) :
    parseVal (fuel + 1) ('\x7b' :: cs1) =
      (match skipWs cs1 with
        | '\x7d' :: cs2 => .ok (.jobj [], cs2)
        | _ => (parseMembers fuel cs1).map (fun p => (.jobj (dictOfPairs p.1), p.2))) := by
  rw [parseVal, skipWs_cons_of_nonws (by decide)]
  rfl

theorem skipWs_dumpsItems_head (ind2 : Nat) (x : JVal) (xs : List JVal) (X : List Char) :
    ∃ c cs, skipWs (dumpsItems ind2 x xs ++ X) = c :: cs ∧ ¬ c = ']' ∧ ¬ c = '\x7d' := by
  obtain ⟨c, cs, hd, hws, h1, h2⟩ := dumpsVal_head x ind2
  cases xs with
  | nil =>
    rw [show dumpsItems ind2 x [] = padChars ind2 ++ dumpsVal ind2 x from by rw [dumpsItems]]
    rw [List.append_assoc, skipWs_ws_append (wsOnly_padChars ind2), hd, List.cons_append,
      skipWs_cons_of_nonws hws]
    exact ⟨c, _, rfl, h1, h2⟩
  | cons y ys =>
    rw [show dumpsItems ind2 x (y :: ys)
        = padChars ind2 ++ dumpsVal ind2 x ++ ',' :: '\n' :: dumpsItems ind2 y ys
        from by rw [dumpsItems]]
    rw [List.append_assoc, List.append_assoc, skipWs_ws_append (wsOnly_padChars ind2), hd,
      List.cons_append, skipWs_cons_of_nonws hws]
    exact ⟨c, _, rfl, h1, h2⟩

theorem skipWs_dumpsFields_head (ind2 : Nat) (f : String × JVal)
    (fs : List (String × JVal)) (X : List Char) :
    ∃ cs, skipWs (dumpsFields ind2 f fs ++ X) = '"' :: cs := by
  obtain ⟨k, v⟩ := f
  cases fs with
  | nil =>
    rw [show dumpsFields ind2 (k, v) []
        = padChars ind2 ++ jsonStrChars k ++ ':' :: ' ' :: dumpsVal ind2 v
        from by rw [dumpsFields]]
    rw [jsonStrChars]
    simp only [List.append_assoc, List.cons_append, List.nil_append]
    rw [skipWs_ws_append (wsOnly_padChars ind2), skipWs_cons_of_nonws (by decide)]
    exact ⟨_, rfl⟩
  | cons g gs =>
    rw [show dumpsFields ind2 (k, v) (g :: gs)
        = padChars ind2 ++ jsonStrChars k ++ ':' :: ' ' :: dumpsVal ind2 v
          ++ ',' :: '\n' :: dumpsFields ind2 g gs
        from by rw [dumpsFields]]
    rw [jsonStrChars]
    simp only [List.append_assoc, List.cons_append, List.nil_append]
    rw [skipWs_ws_append (wsOnly_padChars ind2), skipWs_cons_of_nonws (by decide)]
    exact ⟨_, rfl⟩

theorem parseVal_ws_cons {c : Char} (hc : wsChar c = true) (fuel : Nat) (cs : List Char) :
    parseVal fuel (c :: cs) = parseVal fuel cs :=
  parseVal_ws (w := [c]) (by simp [wsOnly, hc]) fuel cs

theorem parseItems_ws_cons {c : Char} (hc : wsChar c = true) (fuel : Nat) (cs : List Char) :
    parseItems fuel (c :: cs) = parseItems fuel cs :=
  parseItems_ws (w := [c]) (by simp [wsOnly, hc]) fuel cs

theorem parseMembers_ws_cons {c : Char} (hc : wsChar c = true) (fuel : Nat) (cs : List Char) :
    parseMembers fuel (c :: cs) = parseMembers fuel cs :=
  parseMembers_ws (w := [c]) (by simp [wsOnly, hc]) fuel cs

theorem digit_not_letters {d : Char} (h : isDigitChar d = true) :
    ¬ d = 'n' ∧ ¬ d = 't' ∧ ¬ d = 'f' ∧ ¬ d = '"' ∧ ¬ d = '[' ∧ ¬ d = '\x7b' := by
  refine ⟨?_, ?_, ?_, ?_, ?_, ?_⟩ <;> (intro h1; subst h1; simp [isDigitChar] at h)

theorem numBoundary_comma (z : List Char) : numBoundary (',' :: z) = true := rfl

theorem wsOnly_nl_pad (ind : Nat) : wsOnly ('\n' :: padChars ind) = true := by
  rw [wsOnly, wsOnly_padChars ind]; decide

theorem parse_print : ∀ fuel : Nat,
    (∀ (v : JVal) (ind : Nat) (rest : List Char), JVal.wf v = true → jfuel v ≤ fuel →
      numBoundary rest = true →
      parseVal fuel (dumpsVal ind v ++ rest) = .ok (v, rest)) ∧
    (∀ (x : JVal) (xs : List JVal) (ind : Nat) (w rest : List Char),
      JVal.wfList (x :: xs) = true → jfuelList (x :: xs) ≤ fuel → wsOnly w = true →
      parseItems fuel (dumpsItems ind x xs ++ (w ++ ']' :: rest)) = .ok (x :: xs, rest)) ∧
    (∀ (k : String) (fv : JVal) (fs : List (String × JVal)) (ind : Nat) (w rest : List Char),
      JVal.wfFields ((k, fv) :: fs) = true → jfuelFields ((k, fv) :: fs) ≤ fuel →
      wsOnly w = true →
      parseMembers fuel (dumpsFields ind (k, fv) fs ++ (w ++ '\x7d' :: rest))
        = .ok ((k, fv) :: fs, rest)) := by
  intro fuel
  induction fuel using Nat.strong_induction_on with
  | _ fuel ih =>
    cases fuel with
    | zero =>
      refine ⟨?_, ?_, ?_⟩
      · intro v ind rest _ hle _
        have h1 := jfuel_pos v
        exact absurd hle (by omega)
      · intro x xs ind w rest _ hle _
        simp only [jfuelList] at hle
        exact absurd hle (by omega)
      · intro k0 fv fs ind w rest _ hle _
        simp only [jfuelFields] at hle
        exact absurd hle (by omega)
    | succ fuel =>
      obtain ⟨ihA, ihB, ihC⟩ := ih fuel (Nat.lt_succ_self fuel)
      refine ⟨?_, ?_, ?_⟩
      · intro v ind rest hwf hle hnb
        cases v with
        | jnull =>
          rw [show dumpsVal ind .jnull = ['n', 'u', 'l', 'l'] from by simp [dumpsVal]]
          simp only [List.cons_append, List.nil_append]
          rw [parseVal_null_eq, if_pos (by simp [List.isPrefixOf])]
          rfl
        | jbool b =>
          cases b with
          | true =>
            rw [show dumpsVal ind (.jbool true) = ['t', 'r', 'u', 'e'] from by simp [dumpsVal]]
            simp only [List.cons_append, List.nil_append]
            rw [parseVal_true_eq, if_pos (by simp [List.isPrefixOf])]
            rfl
          | false =>
            rw [show dumpsVal ind (.jbool false) = ['f', 'a', 'l', 's', 'e'] from by
              simp [dumpsVal]]
            simp only [List.cons_append, List.nil_append]
            rw [parseVal_false_eq, if_pos (by simp [List.isPrefixOf])]
            rfl
        | jnum n =>
          rw [show dumpsVal ind (.jnum n) = intChars n from by simp [dumpsVal]]
          by_cases hn : n < 0
          · rw [show intChars n = '-' :: natChars n.natAbs from by rw [intChars, if_pos hn]]
            simp only [List.cons_append]
            rw [parseVal_num_dispatch fuel '-' (natChars n.natAbs ++ rest) (Or.inl rfl)
              (by decide) ⟨by decide, by decide, by decide, by decide, by decide, by decide⟩]
            rw [show ('-' :: (natChars n.natAbs ++ rest)) = intChars n ++ rest from by
              rw [intChars, if_pos hn]; rfl]
            rw [parseNumber_intChars n rest hnb]
            rfl
          · obtain ⟨hdig, -, d, ds, hds, -⟩ := natChars_spec n.natAbs
            have hd : isDigitChar d = true := hdig d (by simp [hds])
            rw [show intChars n = natChars n.natAbs from by rw [intChars, if_neg hn], hds]
            simp only [List.cons_append]
            rw [parseVal_num_dispatch fuel d (ds ++ rest) (Or.inr hd) (digit_nonws hd).1
              (digit_not_letters hd)]
            rw [show (d :: (ds ++ rest)) = intChars n ++ rest from by
              rw [intChars, if_neg hn, hds]; rfl]
            rw [parseNumber_intChars n rest hnb]
            rfl
        | jstr s =>
          rw [show dumpsVal ind (.jstr s) = '"' :: (s.data.flatMap jsonEscapeChar ++ ['"'])
            from by simp [dumpsVal, jsonStrChars]]
          simp only [List.cons_append, List.append_assoc, List.nil_append]
          rw [parseVal_str_eq, parseStringBody_escape]
          rfl
        | jarr xs =>
          cases xs with
          | nil =>
            rw [show dumpsVal ind (.jarr []) = ['[', ']'] from by simp [dumpsVal]]
            simp only [List.cons_append, List.nil_append]
            rw [parseVal_arr_eq, skipWs_cons_of_nonws (by decide)]
            rfl
          | cons x xs =>
            have hwl : JVal.wfList (x :: xs) = true := by
              rw [JVal.wf] at hwf; exact hwf
            have hfl : jfuelList (x :: xs) ≤ fuel := by
              rw [jfuel] at hle; omega
            rw [show dumpsVal ind (.jarr (x :: xs))
                = '[' :: '\n' :: (dumpsItems (ind + 2) x xs ++ ('\n' :: (padChars ind ++ [']'])))
              from by simp [dumpsVal]]
            simp only [List.cons_append, List.append_assoc, List.nil_append]
            rw [parseVal_arr_eq, skipWs_cons_of_ws (by decide)]
            obtain ⟨c, cs, hskip, hc1, hc2⟩ :=
              skipWs_dumpsItems_head (ind + 2) x xs ('\n' :: (padChars ind ++ (']' :: rest)))
            rw [hskip]
            split
            · rename_i cs2 heq
              injection heq with h1 h2
              exact absurd h1 hc1
            · have hI := ihB x xs (ind + 2) ('\n' :: padChars ind) rest hwl hfl
                (wsOnly_nl_pad ind)
              simp only [List.cons_append, List.append_assoc] at hI
              rw [parseItems_ws_cons (by decide) fuel, hI]
              rfl
        | jobj fs =>
          cases fs with
          | nil =>
            rw [show dumpsVal ind (.jobj []) = ['\x7b', '\x7d'] from by simp [dumpsVal]]
            simp only [List.cons_append, List.nil_append]
            rw [parseVal_obj_eq, skipWs_cons_of_nonws (by decide)]
            rfl
          | cons f fs =>
            obtain ⟨k0, v0⟩ := f
            have hnd : nodupKeys ((k0, v0) :: fs) = true := by
              rw [JVal.wf, Bool.and_eq_true] at hwf; exact hwf.1
            have hwff : JVal.wfFields ((k0, v0) :: fs) = true := by
              rw [JVal.wf, Bool.and_eq_true] at hwf; exact hwf.2
            have hff : jfuelFields ((k0, v0) :: fs) ≤ fuel := by
              rw [jfuel] at hle; omega
            rw [show dumpsVal ind (.jobj ((k0, v0) :: fs))
                = '\x7b' :: '\n' ::
                  (dumpsFields (ind + 2) (k0, v0) fs ++ ('\n' :: (padChars ind ++ ['\x7d'])))
              from by simp [dumpsVal]]
            simp only [List.cons_append, List.append_assoc, List.nil_append]
            rw [parseVal_obj_eq, skipWs_cons_of_ws (by decide)]
            obtain ⟨cs, hskip⟩ := skipWs_dumpsFields_head (ind + 2) (k0, v0) fs
              ('\n' :: (padChars ind ++ ('\x7d' :: rest)))
            rw [hskip]
            split
            · rename_i cs2 heq
              injection heq with h1 h2
              exact absurd h1 (by decide)
            · have hI := ihC k0 v0 fs (ind + 2) ('\n' :: padChars ind) rest hwff hff
                (wsOnly_nl_pad ind)
              simp only [List.cons_append, List.append_assoc] at hI
              rw [parseMembers_ws_cons (by decide) fuel, hI]
              simp only [Except.map]
              rw [dictOfPairs_nodup hnd]
      · intro x xs ind w rest hwf hle hws
        have hwfx : JVal.wf x = true := by
          rw [JVal.wfList, Bool.and_eq_true] at hwf; exact hwf.1
        rw [parseItems]
        cases xs with
        | nil =>
          rw [show dumpsItems ind x [] = padChars ind ++ dumpsVal ind x from by
            rw [dumpsItems]]
          simp only [List.append_assoc]
          rw [parseVal_ws (wsOnly_padChars ind)]
          have hnb2 : numBoundary (w ++ ']' :: rest) = true :=
            numBoundary_ws_append hws ⟨by decide, by decide, by decide, by decide⟩ rest
          have hval := ihA x ind (w ++ ']' :: rest) hwfx
            (by simp only [jfuelList] at hle; omega) hnb2
          have hsk : skipWs (w ++ ']' :: rest) = ']' :: rest := by
            rw [skipWs_ws_append hws, skipWs_cons_of_nonws (by decide)]
          simp only [hval, hsk]
        | cons y ys =>
          have hwfr : JVal.wfList (y :: ys) = true := by
            rw [JVal.wfList, Bool.and_eq_true] at hwf; exact hwf.2
          have hflr : jfuelList (y :: ys) ≤ fuel := by
            simp only [jfuelList] at hle ⊢; omega
          rw [show dumpsItems ind x (y :: ys)
              = padChars ind ++ dumpsVal ind x ++ ',' :: '\n' :: dumpsItems ind y ys
            from by rw [dumpsItems]]
          simp only [List.append_assoc, List.cons_append]
          rw [parseVal_ws (wsOnly_padChars ind)]
          have hval := ihA x ind (',' :: '\n' :: (dumpsItems ind y ys ++ (w ++ ']' :: rest)))
            hwfx (by simp only [jfuelList] at hle; omega) (numBoundary_comma _)
          have hsk : skipWs (',' :: '\n' :: (dumpsItems ind y ys ++ (w ++ ']' :: rest)))
              = ',' :: '\n' :: (dumpsItems ind y ys ++ (w ++ ']' :: rest)) :=
            skipWs_cons_of_nonws (by decide)
          have htail : parseItems fuel ('\n' :: (dumpsItems ind y ys ++ (w ++ ']' :: rest)))
              = .ok (y :: ys, rest) := by
            rw [parseItems_ws_cons (by decide), ihB y ys ind w rest hwfr hflr hws]
          simp only [hval, hsk, htail, Except.map]
      · intro k0 fv fs ind w rest hwf hle hws
        have hwfv : JVal.wf fv = true := by
          rw [JVal.wfFields, Bool.and_eq_true] at hwf; exact hwf.1
        have hfv : jfuel fv ≤ fuel := by
          simp only [jfuelFields] at hle; omega
        rw [parseMembers]
        cases fs with
        | nil =>
          rw [show dumpsFields ind (k0, fv) []
              = padChars ind ++ jsonStrChars k0 ++ ':' :: ' ' :: dumpsVal ind fv
            from by rw [dumpsFields]]
          rw [jsonStrChars]
          simp only [List.append_assoc, List.cons_append, List.nil_append]
          rw [skipWs_ws_append (wsOnly_padChars ind), skipWs_cons_of_nonws (by decide)]
          have hstr : parseStringBody (k0.data.flatMap jsonEscapeChar
                ++ '"' :: (':' :: ' ' :: (dumpsVal ind fv ++ (w ++ '\x7d' :: rest))))
              = .ok (k0, ':' :: ' ' :: (dumpsVal ind fv ++ (w ++ '\x7d' :: rest))) :=
            parseStringBody_escape k0.data _
          have hcolon : skipWs (':' :: ' ' :: (dumpsVal ind fv ++ (w ++ '\x7d' :: rest)))
              = ':' :: ' ' :: (dumpsVal ind fv ++ (w ++ '\x7d' :: rest)) :=
            skipWs_cons_of_nonws (by decide)
          have hnb2 : numBoundary (w ++ '\x7d' :: rest) = true :=
            numBoundary_ws_append hws ⟨by decide, by decide, by decide, by decide⟩ rest
          have hval : parseVal fuel (' ' :: (dumpsVal ind fv ++ (w ++ '\x7d' :: rest)))
              = .ok (fv, w ++ '\x7d' :: rest) := by
            rw [parseVal_ws_cons (by decide), ihA fv ind (w ++ '\x7d' :: rest) hwfv hfv hnb2]
          have hsk2 : skipWs (w ++ '\x7d' :: rest) = '\x7d' :: rest := by
            rw [skipWs_ws_append hws, skipWs_cons_of_nonws (by decide)]
          simp only [hstr, hcolon, hval, hsk2]
        | cons g gs =>
          obtain ⟨k1, v1⟩ := g
          have hwfr : JVal.wfFields ((k1, v1) :: gs) = true := by
            rw [JVal.wfFields, Bool.and_eq_true] at hwf; exact hwf.2
          have hfr : jfuelFields ((k1, v1) :: gs) ≤ fuel := by
            simp only [jfuelFields] at hle ⊢; omega
          rw [show dumpsFields ind (k0, fv) ((k1, v1) :: gs)
              = padChars ind ++ jsonStrChars k0 ++ ':' :: ' ' :: dumpsVal ind fv
                ++ ',' :: '\n' :: dumpsFields ind (k1, v1) gs
            from by rw [dumpsFields]]
          rw [jsonStrChars]
          simp only [List.append_assoc, List.cons_append, List.nil_append]
          rw [skipWs_ws_append (wsOnly_padChars ind), skipWs_cons_of_nonws (by decide)]
          have hstr : parseStringBody (k0.data.flatMap jsonEscapeChar
                ++ '"' :: (':' :: ' ' :: (dumpsVal ind fv
                  ++ (',' :: '\n' :: (dumpsFields ind (k1, v1) gs ++ (w ++ '\x7d' :: rest))))))
              = .ok (k0, ':' :: ' ' :: (dumpsVal ind fv
                  ++ (',' :: '\n' :: (dumpsFields ind (k1, v1) gs ++ (w ++ '\x7d' :: rest))))) :=
            parseStringBody_escape k0.data _
          have hcolon : skipWs (':' :: ' ' :: (dumpsVal ind fv
                ++ (',' :: '\n' :: (dumpsFields ind (k1, v1) gs ++ (w ++ '\x7d' :: rest)))))
              = ':' :: ' ' :: (dumpsVal ind fv
                ++ (',' :: '\n' :: (dumpsFields ind (k1, v1) gs ++ (w ++ '\x7d' :: rest)))) :=
            skipWs_cons_of_nonws (by decide)
          have hval : parseVal fuel (' ' :: (dumpsVal ind fv
                ++ (',' :: '\n' :: (dumpsFields ind (k1, v1) gs ++ (w ++ '\x7d' :: rest)))))
              = .ok (fv, ',' :: '\n' :: (dumpsFields ind (k1, v1) gs ++ (w ++ '\x7d' :: rest))) := by
            rw [parseVal_ws_cons (by decide),
              ihA fv ind (',' :: '\n' :: (dumpsFields ind (k1, v1) gs ++ (w ++ '\x7d' :: rest)))
                hwfv hfv (numBoundary_comma _)]
          have hsk4 : skipWs (',' :: '\n' :: (dumpsFields ind (k1, v1) gs ++ (w ++ '\x7d' :: rest)))
              = ',' :: '\n' :: (dumpsFields ind (k1, v1) gs ++ (w ++ '\x7d' :: rest)) :=
            skipWs_cons_of_nonws (by decide)
          have htail : parseMembers fuel ('\n' :: (dumpsFields ind (k1, v1) gs
                ++ (w ++ '\x7d' :: rest)))
              = .ok ((k1, v1) :: gs, rest) := by
            rw [parseMembers_ws_cons (by decide), ihC k1 v1 gs ind w rest hwfr hfr hws]
          simp only [hstr, hcolon, hval, hsk4, htail, Except.map]

theorem jfuelList_le_dumpsItems : ∀ (xs : List JVal) (x : JVal) (ind : Nat), 1 ≤ ind →
    (∀ y ∈ x :: xs, ∀ ind2, jfuel y + 1 ≤ 2 * (dumpsVal ind2 y).length) →
    jfuelList (x :: xs) + 1 ≤ 2 * (dumpsItems ind x xs).length := by
  intro xs
  induction xs with
  | nil =>
    intro x ind hind hmem
    have hx := hmem x (by simp) ind
    simp only [dumpsItems, jfuelList, List.length_append, padChars, List.length_replicate]
    omega
  | cons y ys ih =>
    intro x ind hind hmem
    have hx := hmem x (by simp) ind
    have ht := ih y ind hind (fun z hz ind2 => hmem z (List.mem_cons_of_mem _ hz) ind2)
    simp only [dumpsItems, jfuelList, List.length_append, List.length_cons, padChars,
      List.length_replicate] at *
    omega

theorem jfuelFields_le_dumpsFields : ∀ (fs : List (String × JVal)) (f : String × JVal)
    (ind : Nat), 1 ≤ ind →
    (∀ g ∈ f :: fs, ∀ ind2, jfuel g.2 + 1 ≤ 2 * (dumpsVal ind2 g.2).length) →
    jfuelFields (f :: fs) + 1 ≤ 2 * (dumpsFields ind f fs).length := by
  intro fs
  induction fs with
  | nil =>
    intro f ind hind hmem
    obtain ⟨k, v⟩ := f
    have hv := hmem (k, v) (by simp) ind
    simp only [dumpsFields, jfuelFields, List.length_append, List.length_cons, padChars,
      List.length_replicate, jsonStrChars, List.length_nil] at *
    omega
  | cons g gs ih =>
    intro f ind hind hmem
    obtain ⟨k, v⟩ := f
    have hv := hmem (k, v) (by simp) ind
    have ht := ih g ind hind (fun z hz ind2 => hmem z (List.mem_cons_of_mem _ hz) ind2)
    simp only [dumpsFields, jfuelFields, List.length_append, List.length_cons, padChars,
      List.length_replicate, jsonStrChars, List.length_nil] at *
    omega

theorem jfuel_le_dumpsVal : ∀ (v : JVal) (ind : Nat),
    jfuel v + 1 ≤ 2 * (dumpsVal ind v).length := by
  intro v
  induction v using JVal.induct with
  | hnull =>
    intro ind
    simp only [jfuel, dumpsVal, List.length_cons, List.length_nil]
    omega
  | hbool b =>
    intro ind
    cases b <;>
      (simp only [jfuel, dumpsVal, List.length_cons, List.length_nil]; omega)
  | hnum n =>
    intro ind
    obtain ⟨-, -, d, ds, hds, -⟩ := natChars_spec n.natAbs
    simp only [jfuel, dumpsVal, intChars]
    by_cases hn : n < 0
    · rw [if_pos hn, hds]
      simp only [List.length_cons]
      omega
    · rw [if_neg hn, hds]
      simp only [List.length_cons]
      omega
  | hstr s =>
    intro ind
    simp only [jfuel, dumpsVal, jsonStrChars, List.length_append, List.length_cons,
      List.length_nil]
    omega
  | harr xs hmem =>
    intro ind
    cases xs with
    | nil =>
      simp only [jfuel, jfuelList, dumpsVal, List.length_cons, List.length_nil]
      omega
    | cons x xs2 =>
      have hL := jfuelList_le_dumpsItems xs2 x (ind + 2) (by omega) hmem
      simp only [jfuel, dumpsVal, List.length_cons, List.length_append, padChars,
        List.length_replicate, List.length_nil]
      omega
  | hobj fs hmem =>
    intro ind
    cases fs with
    | nil =>
      simp only [jfuel, jfuelFields, dumpsVal, List.length_cons, List.length_nil]
      omega
    | cons f fs2 =>
      have hL := jfuelFields_le_dumpsFields fs2 f (ind + 2) (by omega) hmem
      simp only [jfuel, dumpsVal, List.length_cons, List.length_append, padChars,
        List.length_replicate, List.length_nil]
      omega

/-- On a well-formed value, `json.loads` inverts
`json.dumps(..., indent=2, ensure_ascii=False)`. -/
theorem json_loads_dumps (v : JVal) (hwf : JVal.wf v = true) :
    json_loads (json_dumps v) = .ok v := by
  have hlen := jfuel_le_dumpsVal v 0
  have hA := (parse_print (2 * (dumpsVal 0 v).length + 2)).1 v 0 [] hwf (by omega) rfl
  rw [List.append_nil] at hA
  have hlen2 : (json_dumps v).length = (dumpsVal 0 v).length := rfl
  have hdata : (json_dumps v).data = dumpsVal 0 v := rfl
  rw [json_loads, hlen2, hdata, hA]
  rfl

/-- C9: every normalized response produced by `process_bing_search_results`
on a well-formed raw value survives the JSON round trip performed by
`bing_search`: encoding it with `json_dumps` (`json.dumps(..., indent=2,
ensure_ascii=False)`, source line 185) and decoding the resulting string
with `json_loads` yields an equal value, all fields preserved, the null
placeholders `answer`, `follow_up_questions` and `response_time`
included. -/
theorem process_response_json_roundtrip (data resp : JVal) (hwf : JVal.wf data = true)
    (hok : process_bing_search_results data = .ok resp) :
    json_loads (json_dumps resp) = .ok resp :=
  json_loads_dumps resp (process_wf hwf hok)

theorem process_response_json_roundtrip_witness :
    JVal.wf (.jobj [("queryContext", .jobj [("originalQuery", .jstr "tapir")])]) = true ∧
    process_bing_search_results
        (.jobj [("queryContext", .jobj [("originalQuery", .jstr "tapir")])])
      = .ok (.jobj [("answer", .jnull), ("follow_up_questions", .jnull),
          ("images", .jarr []), ("query", .jstr "tapir"),
          ("response_time", .jnull), ("results", .jarr [])]) ∧
    json_loads (json_dumps (.jobj [("answer", .jnull), ("follow_up_questions", .jnull),
          ("images", .jarr []), ("query", .jstr "tapir"),
          ("response_time", .jnull), ("results", .jarr [])]))
      = .ok (.jobj [("answer", .jnull), ("follow_up_questions", .jnull),
          ("images", .jarr []), ("query", .jstr "tapir"),
          ("response_time", .jnull), ("results", .jarr [])]) :=
  ⟨rfl, rfl,
    process_response_json_roundtrip
      (.jobj [("queryContext", .jobj [("originalQuery", .jstr "tapir")])])
      (.jobj [("answer", .jnull), ("follow_up_questions", .jnull),
        ("images", .jarr []), ("query", .jstr "tapir"),
        ("response_time", .jnull), ("results", .jarr [])])
      rfl rfl⟩
